import Mathlib

/-!
Verification development for the DOCX quiz-question extractor
(`quiz-parser/parse_questions.py`).

The Python module is embedded shallowly:

* text is `String` / `List Char`; each regular expression of the source is
  compiled by hand into a character-level scanner with the exact Python
  `re` semantics (leftmost alternation with backtracking, greedy `\s*`/`\s+`
  and `(.+)`, lazy `(.+?)`, `$` matching at the end of the string or just
  before a final newline, `.` never matching a newline).  The character
  classes `\s` and `\w` are modelled by their ASCII parts, which is exact
  on ASCII input;
* `random.randint(0, m)` is modelled by an oracle stream `rng : Nat → Nat`
  of draws together with a counter that is threaded through the scan; the
  draw used for a fallback answer is `rng ctr % (m + 1)`, reflecting the
  library guarantee that `randint(0, m)` lands in `[0, m]`;
* a Python function that can raise becomes `Except String`; mutation of the
  growing output list becomes explicit state passing.
-/

/-! ## Character utilities -/

/-- ASCII part of Python's whitespace class `\s` (also used by `str.strip`). -/
def isPySpace (c : Char) : Bool :=
  c = ' ' || c = '\t' || c = '\n' || c = '\r' || c = '\x0b' || c = '\x0c'

/-- ASCII part of Python's word class `\w`, used by the `\b` boundary. -/
def isWordChar (c : Char) : Bool :=
  ('a' ≤ c && c ≤ 'z') || ('A' ≤ c && c ≤ 'Z') || ('0' ≤ c && c ≤ '9') || c = '_'

/-- ASCII lower-casing, the effect of `str.lower` / `re.IGNORECASE` on ASCII. -/
def asciiLower (c : Char) : Char :=
  if 'A' ≤ c ∧ c ≤ 'Z' then Char.ofNat (c.toNat + 32) else c

/-- ASCII upper-casing, the effect of `str.upper` on ASCII. -/
def asciiUpper (c : Char) : Char :=
  if 'a' ≤ c ∧ c ≤ 'z' then Char.ofNat (c.toNat - 32) else c

/-- `str.strip()` from the left. -/
def pyStripLeft (s : List Char) : List Char := s.dropWhile isPySpace

/-- `str.strip()` from the right. -/
def pyStripRight (s : List Char) : List Char := (s.reverse.dropWhile isPySpace).reverse

/-- Python `str.strip()` (whitespace on both ends). -/
def pyStrip (s : List Char) : List Char := pyStripRight (pyStripLeft s)

/-- Python `s[:50]`, used for the prompt excerpt in error messages. -/
def takeFifty (s : String) : String := String.mk (s.data.take 50)

/-! ## Generic scanner pieces -/

/-- Case-insensitive literal match of `w` at the start of `s`; returns the
rest of the input after the literal. -/
def scanLitCI : List Char → List Char → Option (List Char)
  | [], s => some s
  | _ :: _, [] => none
  | w :: ws, c :: cs => if asciiLower c = asciiLower w then scanLitCI ws cs else none

/-- Length of the run of characters matched by a greedy `\s*` / `\s+`. -/
def wsRunLen (s : List Char) : Nat := (s.takeWhile isPySpace).length

/-- Length of the run matched by a greedy `.*` (a `.` never matches `'\n'`). -/
def dotRunLen (s : List Char) : Nat := (s.takeWhile (fun c => c ≠ '\n')).length

/-- Python's `$` (without `re.M`): end of input, or just before a final
newline.  `p` is a position into `s`. -/
def endAnchor (s : List Char) (p : Nat) : Bool :=
  p = s.length || (p + 1 = s.length && s.get? p = some '\n')

/-- Backtracking for `(.+)$` at the start of `s`: a greedy `.+` tries the
longest run first and shortens until `$` holds; returns the length of the
capture.  The argument is the length currently tried. -/
def findDotM (s : List Char) : Nat → Option Nat
  | 0 => none
  | m + 1 => if endAnchor s (m + 1) then some (m + 1) else findDotM s m

/-- Backtracking for `\s*(.+)$` on `s`: the greedy `\s*` tries the longest
whitespace run first and shortens on failure of the rest.  The argument is
the number of whitespace characters currently consumed; returns group 1. -/
def wsDotEndGo (s : List Char) : Nat → Option (List Char)
  | 0 =>
    (findDotM s (dotRunLen s)).map (fun m => s.take m)
  | k + 1 =>
    let rem := s.drop (k + 1)
    match findDotM rem (dotRunLen rem) with
    | some m => some (rem.take m)
    | none => wsDotEndGo s k

/-- Group 1 of `\s*(.+)$` matched at the start of `s`, if any. -/
def wsDotEnd (s : List Char) : Option (List Char) := wsDotEndGo s (wsRunLen s)

/-- The part `correct\s*answer:?\s*` shared by every correct-answer pattern
of the source: case-insensitive literals, greedy whitespace, optional colon.
All of these are deterministic here because each following token starts with
a non-space character other than `':'`. -/
def scanCorrectAnswerLead (s : List Char) : Option (List Char) :=
  match scanLitCI "correct".data s with
  | none => none
  | some r1 =>
    let r2 := r1.dropWhile isPySpace
    match scanLitCI "answer".data r2 with
    | none => none
    | some r3 =>
      let r4 := match r3 with
        | c :: rest => if c = ':' then rest else c :: rest
        | [] => []
      some (r4.dropWhile isPySpace)

/-- The letters accepted by the capture `([A-D])` under `re.IGNORECASE`. -/
def mcLetters : List Char := ['A', 'B', 'C', 'D', 'a', 'b', 'c', 'd']

/-- Scanner for `^correct\s*answer:?\s*([A-D])` (case-insensitive): returns
the captured letter and the unconsumed rest of the input. -/
def scanCAmc (s : List Char) : Option (Char × List Char) :=
  match scanCorrectAnswerLead s with
  | some (c :: rest) => if c ∈ mcLetters then some (c, rest) else none
  | _ => none

/-- The alternation `(true|false|t|f)`, in Python's leftmost-first order. -/
def tfAlternatives : List (List Char) := ["true".data, "false".data, "t".data, "f".data]

/-- Does `alt` match case-insensitively at the start of `s`? -/
def ciStartsWith (alt s : List Char) : Bool :=
  decide ((s.take alt.length).map asciiLower = alt) && alt.length ≤ s.length

/-- Scanner for the alternation `(true|false|t|f)` with no continuation:
first alternative that matches wins; returns the matched input characters
(the capture keeps the input's case) and the rest. -/
def tfScanTokenGo (s : List Char) : List (List Char) → Option (List Char × List Char)
  | [] => none
  | alt :: alts =>
    if ciStartsWith alt s then some (s.take alt.length, s.drop alt.length)
    else tfScanTokenGo s alts

/-- Scanner for `^correct\s*answer:?\s*(true|false|t|f)`: capture and rest. -/
def tfScanToken (s : List Char) : Option (List Char × List Char) :=
  match scanCorrectAnswerLead s with
  | some r => tfScanTokenGo r tfAlternatives
  | none => none

/-- Backtracking for `\s+(.+)` after the alternation in the leading-fragment
pattern: the greedy `\s+` tries the longest whitespace run first (at least
one character) and shortens while the greedy `(.+)` finds no character;
the argument is the whitespace length currently tried.  Returns group 2. -/
def wsPlusDotGo (s : List Char) : Nat → Option (List Char)
  | 0 => none
  | w + 1 =>
    let rem := s.drop (w + 1)
    if dotRunLen rem ≥ 1 then some (rem.takeWhile (fun c => c ≠ '\n'))
    else wsPlusDotGo s w

/-- `\s+(.+)` matched at the start of `s`, if possible; returns group 2. -/
def wsPlusDot (s : List Char) : Option (List Char) := wsPlusDotGo s (wsRunLen s)

/-- Alternation of the leading-fragment pattern: each alternative is tried
in order together with its continuation `\s+(.+)`. -/
def tfLeadingGo (r : List Char) : List (List Char) → Option (List Char × List Char)
  | [] => none
  | alt :: alts =>
    if ciStartsWith alt r then
      match wsPlusDot (r.drop alt.length) with
      | some g2 => some (r.take alt.length, g2)
      | none => tfLeadingGo r alts
    else tfLeadingGo r alts

/-- Scanner for `^correct\s*answer:?\s*(true|false|t|f)\s+(.+)`
(case-insensitive), from `TrueFalseParser._handle_leading_correct_answer`:
returns the captured token (group 1) and the remainder (group 2). -/
def tfLeadingMatch (s : List Char) : Option (List Char × List Char) :=
  match scanCorrectAnswerLead s with
  | some r => tfLeadingGo r tfAlternatives
  | none => none

/-- `\s*$` at the start of `s`.  A greedy `\s*` with backtracking against
Python's `$` succeeds exactly when every remaining character is whitespace
(a final `'\n'` is itself whitespace, covering the before-final-newline
case of `$`). -/
def wsEndMatch (s : List Char) : Bool := s.all isPySpace

/-- After the literal `\.` of the trailing-fragment pattern: match
`\s*correct\s*answer:?\s*(true|false|t|f)\s*$` and return the token. -/
def tfTrailingAfterDot (r : List Char) : Option (List Char) :=
  match scanCorrectAnswerLead (r.dropWhile isPySpace) with
  | none => none
  | some r2 => tfTrailingTok r2 tfAlternatives
where
  /-- The alternation, each alternative continued by `\s*$`. -/
  tfTrailingTok (r2 : List Char) : List (List Char) → Option (List Char)
    | [] => none
    | alt :: alts =>
      if ciStartsWith alt r2 && wsEndMatch (r2.drop alt.length) then some (r2.take alt.length)
      else tfTrailingTok r2 alts

/-- Lazy loop for `^(.+?)\.` of the trailing-fragment pattern
`^(.+?)\.\s*correct\s*answer:?\s*(true|false|t|f)\s*$`: group 1 grows from
the shortest length; it may not contain a newline; returns group 1 and the
token. -/
def tfTrailingGo (s : List Char) (m : Nat) : Nat → Option (List Char × List Char)
  | 0 => none
  | fuel + 1 =>
    if m > dotRunLen s then none
    else
      match s.get? m with
      | some '.' =>
        match tfTrailingAfterDot (s.drop (m + 1)) with
        | some tok => some (s.take m, tok)
        | none => tfTrailingGo s (m + 1) fuel
      | _ => tfTrailingGo s (m + 1) fuel

/-- Scanner for the full trailing-fragment pattern (the `re.search` of
`_parse_with_trailing_answer`; its `^` anchor restricts the search to
position 0): group 1 and the true/false token. -/
def tfTrailingMatch (s : List Char) : Option (List Char × List Char) :=
  tfTrailingGo s 1 (s.length + 1)

/-! ## The whole-word keyword search `\bassume\b` -/

/-- Does `assume` match case-insensitively at the start of `s`, with a word
boundary after it? -/
def assumeHere : List Char → Bool
  | c1 :: c2 :: c3 :: c4 :: c5 :: c6 :: rest =>
    asciiLower c1 = 'a' && asciiLower c2 = 's' && asciiLower c3 = 's' &&
    asciiLower c4 = 'u' && asciiLower c5 = 'm' && asciiLower c6 = 'e' &&
    (match rest with
     | [] => true
     | c :: _ => !isWordChar c)
  | _ => false

/-- Scan of `re.search(r"\bassume\b", s, re.IGNORECASE)`: `bnd` records
whether a word boundary holds before the current position (true at the
start of the input, and after any non-word character). -/
def hasAssumeAux : Bool → List Char → Bool
  | bnd, [] => bnd && assumeHere []
  | bnd, c :: rest => (bnd && assumeHere (c :: rest)) || hasAssumeAux (!isWordChar c) rest

/-- `re.search(r"\bassume\b", s, re.IGNORECASE)` succeeds on `s`. -/
def hasAssumeWord (s : List Char) : Bool := hasAssumeAux true s

/-! ## Sentence splitting

`re.split(r"(?<=[.!?])\s+", full_text)`: the text is cut at every maximal
whitespace run whose preceding character is `.`, `!` or `?`. -/

/-- Accumulating scan for the sentence split; `acc` holds the current
sentence reversed.  The fuel only serves structural termination: every step
that recurses consumes at least one character, so `length + 1` fuel is
always enough. -/
def sentSplitGo : Nat → List Char → List Char → List (List Char)
  | 0, acc, _ => [acc.reverse]
  | _ + 1, acc, [] => [acc.reverse]
  | fuel + 1, acc, c :: rest =>
    if isPySpace c && (match acc with
        | p :: _ => p = '.' || p = '!' || p = '?'
        | [] => false) then
      acc.reverse :: sentSplitGo fuel [] (rest.dropWhile isPySpace)
    else
      sentSplitGo fuel (c :: acc) rest

/-- `re.split(r"(?<=[.!?])\s+", text)`. -/
def pySplitSentences (text : String) : List String :=
  (sentSplitGo (text.data.length + 1) [] text.data).map String.mk

/-! ## Data model: the question record -/

/-- The question dictionary produced by `create_question_dict`; `qtype`
models the `"type"` key.  `correct_answer` is a Python integer. -/
structure Question where
  question : String
  answers : List String
  qtype : String
  correct_answer : Int
deriving DecidableEq, Repr

/-- `create_question_dict`. -/
def create_question_dict (question : String) (answers : List String)
    (q_type : String) (correct_answer : Int) : Question :=
  { question := question, answers := answers, qtype := q_type,
    correct_answer := correct_answer }

/-- `get_random_correct_answer(max_index)`: the draw `roll` of the oracle
stream stands for the value of `random.randint(0, max_index)`, which always
lies in `[0, max_index]`; the reduction `% (max_index + 1)` expresses that
guarantee. -/
def get_random_correct_answer (max_index : Int) (roll : Nat) : Int :=
  (roll : Int) % (max_index + 1)

/-- `convert_letter_to_index`: `ord(letter.upper()) - ord("A")`. -/
def convert_letter_to_index (letter : Char) : Int :=
  ((asciiUpper letter).toNat : Int) - ('A'.toNat : Int)

/-- `convert_true_false_to_index`: `0 if value.upper() in ["TRUE", "T"] else 1`. -/
def convert_true_false_to_index (value : List Char) : Int :=
  if value.map asciiUpper = "TRUE".data ∨ value.map asciiUpper = "T".data then 0 else 1

/-- `parse_correct_answer_line` specialised to the multiple-choice pattern
`^correct\s*answer:?\s*([A-D])` and `convert_letter_to_index`; the line is
stripped first, as in the source. -/
def parseCorrectAnswerLineMC (line : String) : Option Int :=
  (scanCAmc (pyStrip line.data)).map (fun p => convert_letter_to_index p.1)

/-- `parse_correct_answer_line` specialised to the true/false pattern
`^correct\s*answer:?\s*(true|false|t|f)` and `convert_true_false_to_index`. -/
def parseCorrectAnswerLineTF (line : String) : Option Int :=
  (tfScanToken (pyStrip line.data)).map (fun p => convert_true_false_to_index p.1)

/-! ## MultipleChoiceParser -/

/-- `MultipleChoiceParser.ANSWER_LABELS`. -/
def mcAnswerLabels : List Char := ['A', 'B', 'C', 'D']

/-- The answer-line pattern of `_parse_answers`: `^{label}[\.\)]\s*(.+)$`
(case-insensitive); returns group 1 (untrimmed). -/
def mcAnswerLineMatch (label : Char) (line : String) : Option (List Char) :=
  match line.data with
  | c :: d :: rest =>
    if asciiLower c = asciiLower label ∧ (d = '.' ∨ d = ')') then wsDotEnd rest else none
  | _ => none

/-- The missing-answer message of `_parse_answers`. -/
def mcMissingAnswerMsg (question_text : String) (label : Char) : String :=
  "Question '" ++ takeFifty question_text ++
    "...' does not have 4 answer choices. Missing answer " ++ String.mk [label]

/-- The improperly-formatted-answer message of `_parse_answers`. -/
def mcBadAnswerMsg (question_text : String) (label : Char) (answer_line : String) : String :=
  "Question '" ++ takeFifty question_text ++
    "...' has improperly formatted answer. Expected answer labeled '" ++ String.mk [label] ++
    "', but found: '" ++ answer_line ++ "'"

/-- The loop of `MultipleChoiceParser._parse_answers` over the expected
labels; `acc` holds the answers collected so far. -/
def mcParseAnswersAux (lines : List String) (question_text : String) :
    List Char → Nat → List String → Except String (List String)
  | [], _, acc => .ok acc
  | label :: rest, i, acc =>
    match lines[i]? with
    | none => .error (mcMissingAnswerMsg question_text label)
    | some answer_line =>
      match mcAnswerLineMatch label answer_line with
      | none => .error (mcBadAnswerMsg question_text label answer_line)
      | some g => mcParseAnswersAux lines question_text rest (i + 1) (acc ++ [String.mk (pyStrip g)])

/-- `MultipleChoiceParser._parse_answers`. -/
def mcParseAnswers (lines : List String) (start_index : Nat) (question_text : String) :
    Except String (List String) :=
  mcParseAnswersAux lines question_text mcAnswerLabels start_index []

/-- `MultipleChoiceParser._find_correct_answer`. -/
def mcFindCorrectAnswer (lines : List String) (index : Nat) : Option Int :=
  match lines[index]? with
  | none => none
  | some line => parseCorrectAnswerLineMC line

/-- `line.lower().startswith("question")`. -/
def isQuestionMarker (line : String) : Bool :=
  "question".data.isPrefixOf (line.data.map asciiLower)

/-- The no-question-text message of `_parse_single_question`. -/
def mcNoTextMsg (i : Nat) : String :=
  "Found 'Question' marker at line " ++ toString (i + 1) ++ " but no question text follows"

/-- `MultipleChoiceParser._parse_single_question`: returns the question
record, the next scan index, and the updated draw counter. -/
def mcParseSingle (lines : List String) (start_index : Nat) (rng : Nat → Nat) (ctr : Nat) :
    Except String (Question × Nat × Nat) :=
  if start_index + 1 ≥ lines.length then .error (mcNoTextMsg start_index)
  else
    let question_text := lines.getD (start_index + 1) ""
    match mcParseAnswers lines (start_index + 2) question_text with
    | .error e => .error e
    | .ok answers =>
      match mcFindCorrectAnswer lines (start_index + 6) with
      | some c =>
        .ok (create_question_dict question_text answers "multiple_choice" c,
             start_index + 7, ctr)
      | none =>
        .ok (create_question_dict question_text answers "multiple_choice"
               (get_random_correct_answer 3 (rng ctr)),
             start_index + 6, ctr + 1)

/-- The scan loop of `MultipleChoiceParser.parse`.  The fuel only bounds the
number of iterations; every iteration advances the index by at least one, so
`lines.length` fuel is always enough. -/
def mcLoopGo (lines : List String) (rng : Nat → Nat) :
    Nat → Nat → Nat → List Question → Except String (List Question × Nat)
  | 0, _, ctr, acc => .ok (acc, ctr)
  | fuel + 1, i, ctr, acc =>
    if i < lines.length then
      if isQuestionMarker (lines.getD i "") then
        match mcParseSingle lines i rng ctr with
        | .error e => .error e
        | .ok (q, ni, ctr2) => mcLoopGo lines rng fuel ni ctr2 (acc ++ [q])
      else mcLoopGo lines rng fuel (i + 1) ctr acc
    else .ok (acc, ctr)

/-- `MultipleChoiceParser.parse`, with the random oracle and its counter. -/
def MultipleChoiceParser.parse (lines : List String) (rng : Nat → Nat) (ctr : Nat) :
    Except String (List Question × Nat) :=
  mcLoopGo lines rng lines.length 0 ctr []

/-! ## TrueFalseParser -/

/-- `TrueFalseParser.ANSWERS`. -/
def tfAnswers : List String := ["True", "False"]

/-- `questions[-1]["correct_answer"] = v`: in-place update of the last
record, made explicit. -/
def updateLastCA : List Question → Int → List Question
  | [], _ => []
  | [q], v => [{ q with correct_answer := v }]
  | q :: q2 :: rest, v => q :: updateLastCA (q2 :: rest) v

/-- `TrueFalseParser._handle_leading_correct_answer`: returns the (possibly
truncated) sentence and the (possibly updated) question list. -/
def tfHandleLeading (sentence : String) (questions : List Question) :
    String × List Question :=
  match tfLeadingMatch sentence.data with
  | some (tok, g2) =>
    (String.mk (pyStrip g2),
     if questions.isEmpty then questions
     else updateLastCA questions (convert_true_false_to_index tok))
  | none => (sentence, questions)

/-- `TrueFalseParser._parse_with_trailing_answer`. -/
def tfParseWithTrailing (sentence : String) : Option Question :=
  (tfTrailingMatch sentence.data).map fun p =>
    create_question_dict (String.mk (pyStrip p.1) ++ ".") tfAnswers "true_false"
      (convert_true_false_to_index p.2)

/-- `TrueFalseParser._find_correct_answer_in_next`. -/
def tfFindCorrectAnswerInNext (sentences : List String) (index : Nat) : Option Int :=
  match sentences[index]? with
  | none => none
  | some s => parseCorrectAnswerLineTF s

/-- `TrueFalseParser._process_assumption_sentence`: returns the updated
question list, the next scan index, and the updated draw counter. -/
def tfProcess (rng : Nat → Nat) (sentences : List String) (index : Nat)
    (questions : List Question) (ctr : Nat) : List Question × Nat × Nat :=
  let stripped := String.mk (pyStrip (sentences.getD index "").data)
  let hl := tfHandleLeading stripped questions
  match tfParseWithTrailing hl.1 with
  | some q => (hl.2 ++ [q], index + 1, ctr)
  | none =>
    match tfFindCorrectAnswerInNext sentences (index + 1) with
    | some c =>
      let q := create_question_dict hl.1 tfAnswers "true_false" c
      let ni :=
        if index + 1 < sentences.length ∧
            hasAssumeWord (sentences.getD (index + 1) "").data = false
        then index + 2 else index + 1
      (hl.2 ++ [q], ni, ctr)
    | none =>
      let q := create_question_dict hl.1 tfAnswers "true_false"
        (get_random_correct_answer 1 (rng ctr))
      (hl.2 ++ [q], index + 1, ctr + 1)

/-- The sentence scan loop of `TrueFalseParser.parse`; as for the
multiple-choice loop, `sentences.length` fuel is always enough. -/
def tfLoop (rng : Nat → Nat) (sentences : List String) :
    Nat → Nat → List Question → Nat → List Question × Nat
  | 0, _, qs, ctr => (qs, ctr)
  | fuel + 1, i, qs, ctr =>
    if i < sentences.length then
      if hasAssumeWord (pyStrip (sentences.getD i "").data) then
        let r := tfProcess rng sentences i qs ctr
        tfLoop rng sentences fuel r.2.1 r.1 r.2.2
      else tfLoop rng sentences fuel (i + 1) qs ctr
    else (qs, ctr)

/-- `TrueFalseParser.parse`, with the random oracle and its counter. -/
def TrueFalseParser.parse (lines : List String) (rng : Nat → Nat) (ctr : Nat) :
    List Question × Nat :=
  let sentences := pySplitSentences (String.intercalate " " lines)
  tfLoop rng sentences sentences.length 0 [] ctr

/-! ## Parser registry and the selection boundary -/

/-- The two registered extractor implementations. -/
inductive ParserKind
  | mc
  | tf
deriving DecidableEq, Repr

/-- `QuestionParserRegistry._parsers` after the two `@register` decorators
have run, in registration order (the class definition order of the module). -/
def registryEntries : List (String × ParserKind) :=
  [("multiple_choice", ParserKind.mc), ("true_false", ParserKind.tf)]

/-- `QuestionParserRegistry.get_registered_types`. -/
def QuestionParserRegistry.get_registered_types : List String :=
  registryEntries.map Prod.fst

/-- The `KeyError` message of `get_parser`. -/
def noParserMsg (type_key : String) : String :=
  "No parser registered for type '" ++ type_key ++ "'"

/-- `QuestionParserRegistry.get_parser`. -/
def QuestionParserRegistry.get_parser (type_key : String) : Except String ParserKind :=
  match registryEntries.lookup type_key with
  | some p => .ok p
  | none => .error (noParserMsg type_key)

/-- `parser.parse(lines)` for a registry entry. -/
def runParserKind (k : ParserKind) (lines : List String) (rng : Nat → Nat) (ctr : Nat) :
    Except String (List Question × Nat) :=
  match k with
  | .mc => MultipleChoiceParser.parse lines rng ctr
  | .tf => .ok (TrueFalseParser.parse lines rng ctr)

/-- Python's `repr` of a list of strings, as an f-string renders it. -/
def pyListRepr (xs : List String) : String :=
  "[" ++ String.intercalate ", " (xs.map fun s => "'" ++ s ++ "'") ++ "]"

/-- `valid_types = registered_types + ["all"]` in `parse_docx_questions`. -/
def validTypes : List String := QuestionParserRegistry.get_registered_types ++ ["all"]

/-- The `ValueError` message of `parse_docx_questions`. -/
def invalidTypeMsg (question_type : String) : String :=
  "Invalid question_type '" ++ question_type ++ "'. Must be one of " ++ pyListRepr validTypes

/-- The line cleanup of `parse_docx_questions`:
`[line.strip() for line in text.split("\n") if line.strip()]`. -/
def normalizeLines (text : String) : List String :=
  ((text.splitOn "\n").map (fun l => String.mk (pyStrip l.data))).filter (fun l => l ≠ "")

/-- The dispatch part of `parse_docx_questions`: either every registered
parser in registration order (`"all"`), or the one selected by key.  The
random-draw counter is shared across parsers, as the global `random` state
is in the source. -/
def dispatchQuestionType (lines : List String) (question_type : String) (rng : Nat → Nat) :
    Except String (List Question) :=
  if question_type = "all" then
    match MultipleChoiceParser.parse lines rng 0 with
    | .error e => .error e
    | .ok (mq, c1) => .ok (mq ++ (TrueFalseParser.parse lines rng c1).1)
  else
    match QuestionParserRegistry.get_parser question_type with
    | .error e => .error e
    | .ok k =>
      match runParserKind k lines rng 0 with
      | .error e => .error e
      | .ok (qs, _) => .ok qs

/-- `parse_docx_questions`, from the extracted document text on: the type
check happens before anything else, exactly as in the source. -/
def parse_docx_questions (text : String) (question_type : String) (rng : Nat → Nat) :
    Except String (List Question) :=
  if question_type ∈ validTypes then
    dispatchQuestionType (normalizeLines text) question_type rng
  else .error (invalidTypeMsg question_type)

/-! ## The answer-line pattern as the spec words it -/

/-- Modelled from the spec: the answer-line pattern is written
`^<LABEL>[.|)]\s*(.+)$` in §4.2 step 2; read literally, the character class
`[.|)]` contains the three characters `'.'`, `'|'` and `')'`.  This
definition follows that literal reading; the code's class `[\.\)]` has only
`'.'` and `')'`. -/
def specAnswerLineMatch (label : Char) (line : String) : Option (List Char) :=
  match line.data with
  | c :: d :: rest =>
    if asciiLower c = asciiLower label ∧ (d = '.' ∨ d = '|' ∨ d = ')') then wsDotEnd rest
    else none
  | _ => none

/-! ## Small character facts -/

lemma isPySpace_not_word {c : Char} (h : isPySpace c = true) : isWordChar c = false := by
  simp only [isPySpace, Bool.or_eq_true, decide_eq_true_eq] at h
  rcases h with ((((rfl | rfl) | rfl) | rfl) | rfl) | rfl <;> decide

lemma asciiLower_of_space {c : Char} (h : isPySpace c = true) : asciiLower c = c := by
  simp only [isPySpace, Bool.or_eq_true, decide_eq_true_eq] at h
  rcases h with ((((rfl | rfl) | rfl) | rfl) | rfl) | rfl <;> decide

lemma not_space_of_asciiLower_c {c : Char} (h : asciiLower c = 'c') : isPySpace c = false := by
  by_contra hc
  rw [Bool.not_eq_false] at hc
  rw [asciiLower_of_space hc] at h
  subst h
  exact absurd hc (by decide)

lemma not_space_of_asciiLower_a {c : Char} (h : asciiLower c = 'a') : isPySpace c = false := by
  by_contra hc
  rw [Bool.not_eq_false] at hc
  rw [asciiLower_of_space hc] at h
  subst h
  exact absurd hc (by decide)

lemma mcLetters_not_space {c : Char} (h : c ∈ mcLetters) : isPySpace c = false := by
  fin_cases h <;> decide

lemma mcLetters_not_colon {c : Char} (h : c ∈ mcLetters) : c ≠ ':' := by
  fin_cases h <;> decide

lemma space_not_colon {c : Char} (h : isPySpace c = true) : c ≠ ':' := by
  simp only [isPySpace, Bool.or_eq_true, decide_eq_true_eq] at h
  rcases h with ((((rfl | rfl) | rfl) | rfl) | rfl) | rfl <;> decide

/-! ## `dropWhile` and strip decompositions -/

lemma dropWhile_append_of_all {p : Char → Bool} :
    ∀ {w t : List Char}, (∀ a ∈ w, p a = true) →
      List.dropWhile p (w ++ t) = List.dropWhile p t
  | [], _, _ => rfl
  | a :: w, t, h => by
    have ha : p a = true := h a (List.mem_cons_self a w)
    simp only [List.cons_append, List.dropWhile_cons, ha, if_true]
    exact dropWhile_append_of_all fun b hb => h b (List.mem_cons_of_mem a hb)

lemma dropWhile_cons_of_neg {p : Char → Bool} {c : Char} {l : List Char}
    (h : p c = false) : List.dropWhile p (c :: l) = c :: l := by
  simp [List.dropWhile_cons, h]

lemma dropWhile_append_cons_of_neg {p : Char → Bool} {c : Char} :
    ∀ {a b : List Char}, p c = false →
      List.dropWhile p (a ++ c :: b) = List.dropWhile p a ++ c :: b
  | [], b, h => by simp [dropWhile_cons_of_neg h]
  | d :: a, b, h => by
    by_cases hd : p d = true
    · simp only [List.cons_append, List.dropWhile_cons, hd, if_true]
      exact dropWhile_append_cons_of_neg h
    · rw [Bool.not_eq_true] at hd
      simp [dropWhile_cons_of_neg hd, dropWhile_cons_of_neg h]

/-- The input splits around its strip: whitespace, the stripped core,
whitespace. -/
lemma pyStrip_decomp (s : List Char) :
    ∃ w1 w2, s = w1 ++ pyStrip s ++ w2 ∧
      (∀ c ∈ w1, isPySpace c = true) ∧ (∀ c ∈ w2, isPySpace c = true) := by
  refine ⟨s.takeWhile isPySpace,
          ((pyStripLeft s).reverse.takeWhile isPySpace).reverse, ?_, ?_, ?_⟩
  · have h1 : s = s.takeWhile isPySpace ++ pyStripLeft s :=
      (List.takeWhile_append_dropWhile isPySpace s).symm
    have h2 := congrArg List.reverse
      (List.takeWhile_append_dropWhile isPySpace (pyStripLeft s).reverse)
    simp only [List.reverse_append, List.reverse_reverse] at h2
    have h3 : pyStripLeft s =
        pyStrip s ++ ((pyStripLeft s).reverse.takeWhile isPySpace).reverse := by
      have hps : pyStrip s = ((pyStripLeft s).reverse.dropWhile isPySpace).reverse := rfl
      rw [hps]
      exact h2.symm
    rw [List.append_assoc, ← h3, ← h1]
  · exact fun c hc => List.mem_takeWhile_imp hc
  · intro c hc
    rw [List.mem_reverse] at hc
    exact List.mem_takeWhile_imp hc

/-- Right-stripping an extension of a list that ends in a non-space
character keeps that list intact. -/
lemma pyStripRight_append {l x : List Char} {c : Char} (hc : isPySpace c = false) :
    pyStripRight ((l ++ [c]) ++ x) = (l ++ [c]) ++ pyStripRight x := by
  unfold pyStripRight
  rw [List.reverse_append, List.reverse_append, List.reverse_singleton,
    List.singleton_append, dropWhile_append_cons_of_neg hc]
  simp

/-! ## `updateLastCA` -/

lemma updateLastCA_length : ∀ (qs : List Question) (v : Int),
    (updateLastCA qs v).length = qs.length
  | [], _ => rfl
  | [_], _ => rfl
  | _ :: q2 :: rest, v => by
    have ih := updateLastCA_length (q2 :: rest) v
    calc (updateLastCA (_ :: q2 :: rest) v).length
        = (updateLastCA (q2 :: rest) v).length + 1 := rfl
      _ = (q2 :: rest).length + 1 := by rw [ih]

lemma updateLastCA_append_singleton :
    ∀ (xs : List Question) (q : Question) (v : Int),
      updateLastCA (xs ++ [q]) v = xs ++ [{ q with correct_answer := v }]
  | [], _, _ => rfl
  | [x], q, v => rfl
  | x :: y :: ys, q, v => by
    have ih := updateLastCA_append_singleton (y :: ys) q v
    calc updateLastCA ((x :: y :: ys) ++ [q]) v
        = x :: updateLastCA ((y :: ys) ++ [q]) v := rfl
      _ = x :: ((y :: ys) ++ [{ q with correct_answer := v }]) := by rw [ih]
      _ = (x :: y :: ys) ++ [{ q with correct_answer := v }] := rfl

lemma updateLastCA_getElem?_early :
    ∀ (qs : List Question) (v : Int) (j : Nat), j + 1 < qs.length →
      (updateLastCA qs v)[j]? = qs[j]?
  | [], _, _, h => by simp at h
  | [_], _, j, h => by simp at h
  | q :: q2 :: rest, v, 0, _ => by simp [updateLastCA]
  | q :: q2 :: rest, v, j + 1, h => by
    simp only [updateLastCA, List.getElem?_cons_succ]
    exact updateLastCA_getElem?_early (q2 :: rest) v j (by simpa using h)

lemma updateLastCA_getElem?_last :
    ∀ (qs : List Question) (v : Int) (j : Nat), j + 1 = qs.length →
      ∃ q, qs[j]? = some q ∧
        (updateLastCA qs v)[j]? = some { q with correct_answer := v }
  | [], _, _, h => by simp at h
  | [q], v, j, h => by
    have hj : j = 0 := by
      simp only [List.length_cons, List.length_nil] at h
      omega
    subst hj
    exact ⟨q, rfl, rfl⟩
  | q :: q2 :: rest, v, j, h => by
    have hj : ∃ j', j = j' + 1 := by
      cases j with
      | zero =>
        exfalso
        simp only [List.length_cons] at h
        omega
      | succ j' => exact ⟨j', rfl⟩
    obtain ⟨j', rfl⟩ := hj
    obtain ⟨q0, hq0, hq0'⟩ :=
      updateLastCA_getElem?_last (q2 :: rest) v j' (by simpa using h)
    exact ⟨q0, by simpa using hq0, by simpa [updateLastCA] using hq0'⟩

/-! ## Ranges of the answer-index conversions -/

lemma convert_letter_range {c : Char} (h : c ∈ mcLetters) :
    0 ≤ convert_letter_to_index c ∧ convert_letter_to_index c ≤ 3 := by
  fin_cases h <;> decide

lemma convert_tf_range (v : List Char) :
    convert_true_false_to_index v = 0 ∨ convert_true_false_to_index v = 1 := by
  unfold convert_true_false_to_index
  split <;> simp

lemma get_random_correct_answer_range {m : Int} (hm : 0 ≤ m) (roll : Nat) :
    0 ≤ get_random_correct_answer m roll ∧ get_random_correct_answer m roll ≤ m := by
  unfold get_random_correct_answer
  constructor
  · exact Int.emod_nonneg _ (by omega)
  · have := Int.emod_lt_of_pos (roll : Int) (b := m + 1) (by omega)
    omega

lemma scanCAmc_letter {s : List Char} {c : Char} {r : List Char}
    (h : scanCAmc s = some (c, r)) : c ∈ mcLetters := by
  unfold scanCAmc at h
  cases hl : scanCorrectAnswerLead s with
  | none => rw [hl] at h; exact absurd h (by simp)
  | some t =>
    rw [hl] at h
    cases t with
    | nil => exact absurd h (by simp)
    | cons c0 rest =>
      by_cases hc : c0 ∈ mcLetters
      · simp only [hc, if_true, Option.some.injEq, Prod.mk.injEq] at h
        exact h.1 ▸ hc
      · simp [hc] at h

lemma parseCorrectAnswerLineMC_range {line : String} {c : Int}
    (h : parseCorrectAnswerLineMC line = some c) : 0 ≤ c ∧ c ≤ 3 := by
  unfold parseCorrectAnswerLineMC at h
  cases hs : scanCAmc (pyStrip line.data) with
  | none => rw [hs] at h; exact absurd h (by simp)
  | some p =>
    rw [hs] at h
    simp only [Option.map_some', Option.some.injEq] at h
    exact h ▸ convert_letter_range (scanCAmc_letter hs)

lemma mcFindCorrectAnswer_range {lines : List String} {i : Nat} {c : Int}
    (h : mcFindCorrectAnswer lines i = some c) : 0 ≤ c ∧ c ≤ 3 := by
  unfold mcFindCorrectAnswer at h
  cases hl : lines[i]? with
  | none => rw [hl] at h; exact absurd h (by simp)
  | some line => rw [hl] at h; exact parseCorrectAnswerLineMC_range h

lemma parseCorrectAnswerLineTF_range {line : String} {c : Int}
    (h : parseCorrectAnswerLineTF line = some c) : c = 0 ∨ c = 1 := by
  unfold parseCorrectAnswerLineTF at h
  cases hs : tfScanToken (pyStrip line.data) with
  | none => rw [hs] at h; exact absurd h (by simp)
  | some p =>
    rw [hs] at h
    simp only [Option.map_some', Option.some.injEq] at h
    exact h ▸ convert_tf_range p.1

lemma tfFindCorrectAnswerInNext_range {sentences : List String} {i : Nat} {c : Int}
    (h : tfFindCorrectAnswerInNext sentences i = some c) : c = 0 ∨ c = 1 := by
  unfold tfFindCorrectAnswerInNext at h
  cases hl : sentences[i]? with
  | none => rw [hl] at h; exact absurd h (by simp)
  | some s => rw [hl] at h; exact parseCorrectAnswerLineTF_range h

/-! ## Multiple-choice: record invariants -/

lemma mcParseSingle_good {lines : List String} {rng : Nat → Nat} {i ctr : Nat}
    {q : Question} {ni ctr2 : Nat}
    (h : mcParseSingle lines i rng ctr = .ok (q, ni, ctr2)) :
    q.qtype = "multiple_choice" ∧ 0 ≤ q.correct_answer ∧ q.correct_answer ≤ 3 := by
  simp only [mcParseSingle] at h
  split at h
  · exact absurd h (by simp)
  · split at h
    · exact absurd h (by simp)
    · split at h
      · rename_i answers hAns c hFound
        simp only [Except.ok.injEq, Prod.mk.injEq] at h
        obtain ⟨hq, -, -⟩ := h
        subst hq
        exact ⟨rfl, (mcFindCorrectAnswer_range hFound).1, (mcFindCorrectAnswer_range hFound).2⟩
      · rename_i answers hAns hFound
        simp only [Except.ok.injEq, Prod.mk.injEq] at h
        obtain ⟨hq, -, -⟩ := h
        subst hq
        have := get_random_correct_answer_range (m := 3) (by norm_num) (rng ctr)
        exact ⟨rfl, this.1, this.2⟩

lemma mcLoopGo_good {lines : List String} {rng : Nat → Nat} :
    ∀ (fuel i ctr : Nat) (acc : List Question) {res : List Question} {ctr2 : Nat},
      (∀ q ∈ acc, q.qtype = "multiple_choice" ∧ 0 ≤ q.correct_answer ∧ q.correct_answer ≤ 3) →
      mcLoopGo lines rng fuel i ctr acc = .ok (res, ctr2) →
      ∀ q ∈ res, q.qtype = "multiple_choice" ∧ 0 ≤ q.correct_answer ∧ q.correct_answer ≤ 3
  | 0, i, ctr, acc, res, ctr2, hacc, h => by
    simp only [mcLoopGo] at h
    obtain ⟨rfl, rfl⟩ : acc = res ∧ ctr = ctr2 := by simpa using h
    exact hacc
  | fuel + 1, i, ctr, acc, res, ctr2, hacc, h => by
    simp only [mcLoopGo] at h
    by_cases hi : i < lines.length
    · rw [if_pos hi] at h
      by_cases hm : isQuestionMarker (lines.getD i "") = true
      · rw [if_pos hm] at h
        cases hp : mcParseSingle lines i rng ctr with
        | error e => rw [hp] at h; exact absurd h (by simp)
        | ok t =>
          rw [hp] at h
          obtain ⟨q, ni, ctr3⟩ := t
          have hq := mcParseSingle_good hp
          refine mcLoopGo_good fuel ni ctr3 (acc ++ [q]) ?_ h
          intro x hx
          rcases List.mem_append.mp hx with hx | hx
          · exact hacc x hx
          · rw [List.mem_singleton] at hx
            subst hx
            exact hq
      · rw [Bool.not_eq_true] at hm
        rw [if_neg (by simp only [Bool.not_eq_true]; exact hm)] at h
        exact mcLoopGo_good fuel (i + 1) ctr acc hacc h
    · rw [if_neg hi] at h
      obtain ⟨rfl, rfl⟩ : acc = res ∧ ctr = ctr2 := by simpa using h
      exact hacc

/-! ## Multiple-choice: the answer window -/

lemma mcParseAnswersAux_ok {lines : List String} {qt : String} :
    ∀ (labs : List Char) (i : Nat) (acc : List String) {res : List String},
      mcParseAnswersAux lines qt labs i acc = .ok res →
      ∃ gs : List (List Char),
        res = acc ++ gs.map (fun g => String.mk (pyStrip g)) ∧
        gs.length = labs.length ∧
        ∀ k, k < labs.length →
          ∃ line g, lines[i + k]? = some line ∧
            mcAnswerLineMatch (labs.getD k 'A') line = some g ∧ gs[k]? = some g
  | [], i, acc, res, h => by
    obtain rfl : acc = res := by simpa [mcParseAnswersAux] using h
    exact ⟨[], by simp, rfl, by simp⟩
  | label :: rest, i, acc, res, h => by
    simp only [mcParseAnswersAux] at h
    split at h
    · exact absurd h (by simp)
    · rename_i line hline
      split at h
      · exact absurd h (by simp)
      · rename_i g hmatch
        obtain ⟨gs, hres, hlen, hall⟩ :=
          mcParseAnswersAux_ok rest (i + 1) (acc ++ [String.mk (pyStrip g)]) h
        refine ⟨g :: gs, ?_, by simpa using hlen, ?_⟩
        · rw [hres]
          simp
        · intro k hk
          cases k with
          | zero => exact ⟨line, g, by simpa using hline, by simpa using hmatch, by simp⟩
          | succ k' =>
            obtain ⟨line', g', h1, h2, h3⟩ := hall k' (by simpa using hk)
            have hik : i + 1 + k' = i + (k' + 1) := by omega
            rw [hik] at h1
            exact ⟨line', g', h1, by simpa using h2, by simpa using h3⟩

lemma mcParseAnswersAux_ok_of {lines : List String} {qt : String} :
    ∀ (labs : List Char) (i : Nat) (acc : List String),
      (∀ k, k < labs.length →
        ∃ line g, lines[i + k]? = some line ∧
          mcAnswerLineMatch (labs.getD k 'A') line = some g) →
      ∃ res, mcParseAnswersAux lines qt labs i acc = .ok res
  | [], i, acc, _ => ⟨acc, rfl⟩
  | label :: rest, i, acc, hall => by
    obtain ⟨line, g, h1, h2⟩ := hall 0 (by simp)
    rw [Nat.add_zero] at h1
    simp only [List.getD_cons_zero] at h2
    have hrec := @mcParseAnswersAux_ok_of lines qt rest (i + 1)
      (acc ++ [String.mk (pyStrip g)]) (fun k hk => by
        obtain ⟨line', g', hl, hm⟩ := hall (k + 1) (by simpa using hk)
        have hik : i + (k + 1) = i + 1 + k := by omega
        rw [hik] at hl
        exact ⟨line', g', hl, by simpa using hm⟩)
    obtain ⟨res, hres⟩ := hrec
    exact ⟨res, by simp only [mcParseAnswersAux, h1, h2]; exact hres⟩

lemma mcParseAnswersAux_first_error {lines : List String} {qt : String} :
    ∀ (labs : List Char) (j i : Nat) (acc : List String), j < labs.length →
      (∀ k, k < j →
        ∃ line g, lines[i + k]? = some line ∧
          mcAnswerLineMatch (labs.getD k 'A') line = some g) →
      (lines[i + j]? = none ∨
        ∃ line, lines[i + j]? = some line ∧ mcAnswerLineMatch (labs.getD j 'A') line = none) →
      (mcParseAnswersAux lines qt labs i acc = .error (mcMissingAnswerMsg qt (labs.getD j 'A')) ∧
        lines[i + j]? = none) ∨
      (∃ line, mcParseAnswersAux lines qt labs i acc =
          .error (mcBadAnswerMsg qt (labs.getD j 'A') line) ∧ lines[i + j]? = some line)
  | [], j, i, acc, hj, _, _ => absurd hj (by simp)
  | label :: rest, 0, i, acc, _, _, hfail => by
    rcases hfail with hnone | ⟨line, hline, hmatch⟩
    · left
      rw [Nat.add_zero] at hnone
      constructor
      · simp only [mcParseAnswersAux, hnone]
        simp
      · simpa using hnone
    · right
      rw [Nat.add_zero] at hline
      simp only [List.getD_cons_zero] at hmatch
      refine ⟨line, ?_, by simpa using hline⟩
      simp only [mcParseAnswersAux, hline, hmatch]
      simp
  | label :: rest, j + 1, i, acc, hj, hbefore, hfail => by
    obtain ⟨line, g, h1, h2⟩ := hbefore 0 (by omega)
    rw [Nat.add_zero] at h1
    simp only [List.getD_cons_zero] at h2
    have hrec := @mcParseAnswersAux_first_error lines qt rest j (i + 1)
      (acc ++ [String.mk (pyStrip g)]) (by simpa using hj)
      (fun k hk => by
        obtain ⟨line', g', hl, hm⟩ := hbefore (k + 1) (by omega)
        have hik : i + (k + 1) = i + 1 + k := by omega
        rw [hik] at hl
        exact ⟨line', g', hl, by simpa using hm⟩)
      (by
        have hik : i + (j + 1) = i + 1 + j := by omega
        rcases hfail with hnone | ⟨line', hl, hm⟩
        · left; rw [hik] at hnone; exact hnone
        · right; rw [hik] at hl; exact ⟨line', hl, by simpa using hm⟩)
    have hik : i + 1 + j = i + (j + 1) := by omega
    rcases hrec with ⟨he, hn⟩ | ⟨line', he, hl⟩
    · left
      rw [hik] at hn
      refine ⟨?_, hn⟩
      simp only [mcParseAnswersAux, h1, h2]
      simpa using he
    · right
      rw [hik] at hl
      refine ⟨line', ?_, hl⟩
      simp only [mcParseAnswersAux, h1, h2]
      simpa using he

/-! ## Multiple-choice: reaching a block in the scan loop -/

lemma mcLoopGo_skip {lines : List String} {rng : Nat → Nat} :
    ∀ (d fuel i ctr : Nat) (acc : List Question),
      (∀ k, k < d → isQuestionMarker (lines.getD (i + k) "") = false) →
      i + d ≤ lines.length →
      mcLoopGo lines rng (fuel + d) i ctr acc = mcLoopGo lines rng fuel (i + d) ctr acc
  | 0, fuel, i, ctr, acc, _, _ => by simp
  | d + 1, fuel, i, ctr, acc, hmk, hle => by
    have hi : i < lines.length := by omega
    have hm0 : isQuestionMarker (lines.getD i "") = false := by
      have := hmk 0 (by omega)
      simpa using this
    have hstep : mcLoopGo lines rng (fuel + d + 1) i ctr acc =
        mcLoopGo lines rng (fuel + d) (i + 1) ctr acc := by
      simp only [mcLoopGo]
      rw [if_pos hi, if_neg (by simp only [Bool.not_eq_true]; exact hm0)]
    have harith : fuel + (d + 1) = fuel + d + 1 := by omega
    rw [harith, hstep]
    have hik : i + 1 + d = i + (d + 1) := by omega
    rw [← hik]
    exact mcLoopGo_skip d fuel (i + 1) ctr acc
      (fun k hk => by
        have hmm := hmk (k + 1) (by omega)
        have hik2 : i + (k + 1) = i + 1 + k := by omega
        rw [hik2] at hmm
        exact hmm)
      (by omega)

/-! ## The whole-word search: characterization and strip monotonicity -/

lemma assumeHere_nil : assumeHere [] = false := rfl

lemma hasAssumeAux_iff : ∀ (bnd : Bool) (s : List Char),
    hasAssumeAux bnd s = true ↔
      ∃ a b, s = a ++ b ∧ (a = [] → bnd = true) ∧
        (∀ c, a.getLast? = some c → isWordChar c = false) ∧ assumeHere b = true
  | bnd, [] => by
    constructor
    · intro h
      simp [hasAssumeAux, assumeHere] at h
    · rintro ⟨a, b, hab, -, -, hb⟩
      obtain ⟨rfl, rfl⟩ : a = [] ∧ b = [] := List.append_eq_nil.mp hab.symm
      simp [assumeHere] at hb
  | bnd, c :: rest => by
    constructor
    · intro h
      simp only [hasAssumeAux, Bool.or_eq_true, Bool.and_eq_true] at h
      rcases h with ⟨hbnd, hhere⟩ | hrec
      · exact ⟨[], c :: rest, rfl, fun _ => hbnd, by simp, hhere⟩
      · obtain ⟨a', b', hab, hb1, hb2, hhere⟩ := (hasAssumeAux_iff (!isWordChar c) rest).mp hrec
        refine ⟨c :: a', b', by simp [hab], by simp, ?_, hhere⟩
        intro d hd
        cases a' with
        | nil =>
          have hc := hb1 rfl
          simp only [List.getLast?_singleton, Option.some.injEq] at hd
          subst hd
          simpa using hc
        | cons a0 as =>
          rw [List.getLast?_cons_cons] at hd
          exact hb2 d hd
    · rintro ⟨a, b, hab, h1, h2, hhere⟩
      cases a with
      | nil =>
        simp only [List.nil_append] at hab
        subst hab
        simp only [hasAssumeAux, Bool.or_eq_true, Bool.and_eq_true]
        exact Or.inl ⟨h1 rfl, hhere⟩
      | cons a0 as =>
        simp only [List.cons_append] at hab
        obtain ⟨rfl, hrest⟩ : a0 = c ∧ rest = as ++ b := by
          injection hab with hh1 hh2
          exact ⟨hh1.symm, hh2⟩
        simp only [hasAssumeAux, Bool.or_eq_true, Bool.and_eq_true]
        right
        refine (hasAssumeAux_iff (!isWordChar a0) rest).mpr ⟨as, b, hrest, ?_, ?_, hhere⟩
        · intro has
          subst has
          have := h2 a0 (by simp)
          simp [this]
        · intro d hd
          cases as with
          | nil => simp at hd
          | cons a1 as' =>
            refine h2 d ?_
            rw [List.getLast?_cons_cons]
            exact hd

lemma assumeHere_append_ws {b e : List Char} (hb : assumeHere b = true)
    (he : ∀ c ∈ e, isPySpace c = true) : assumeHere (b ++ e) = true := by
  cases b with
  | nil => exact absurd hb (by simp [assumeHere])
  | cons c1 b1 =>
  cases b1 with
  | nil => exact absurd hb (by simp [assumeHere])
  | cons c2 b2 =>
  cases b2 with
  | nil => exact absurd hb (by simp [assumeHere])
  | cons c3 b3 =>
  cases b3 with
  | nil => exact absurd hb (by simp [assumeHere])
  | cons c4 b4 =>
  cases b4 with
  | nil => exact absurd hb (by simp [assumeHere])
  | cons c5 b5 =>
  cases b5 with
  | nil => exact absurd hb (by simp [assumeHere])
  | cons c6 rest =>
    simp only [assumeHere, Bool.and_eq_true, decide_eq_true_eq] at hb
    obtain ⟨⟨⟨⟨⟨h1, h2⟩, h3⟩, h4⟩, h5⟩, h6⟩ := hb
    cases rest with
    | nil =>
      simp only [List.cons_append, List.nil_append]
      simp only [assumeHere, Bool.and_eq_true, decide_eq_true_eq]
      refine ⟨⟨⟨⟨⟨⟨h1.1, h1.2⟩, h2⟩, h3⟩, h4⟩, h5⟩, ?_⟩
      cases e with
      | nil => simp
      | cons d e' =>
        have := isPySpace_not_word (he d (by simp))
        simp [this]
    | cons d rest' =>
      simp only [List.cons_append]
      simp only [assumeHere, Bool.and_eq_true, decide_eq_true_eq]
      exact ⟨⟨⟨⟨⟨⟨h1.1, h1.2⟩, h2⟩, h3⟩, h4⟩, h5⟩, by simpa using h6⟩

/-- An occurrence of the whole word in the stripped sentence is an
occurrence in the sentence: stripping only removes whitespace, which is
never a word character. -/
lemma hasAssumeWord_of_strip {s : List Char}
    (h : hasAssumeWord (pyStrip s) = true) : hasAssumeWord s = true := by
  obtain ⟨w1, w2, hs, hw1, hw2⟩ := pyStrip_decomp s
  obtain ⟨a, b, hab, -, h2, hhere⟩ := (hasAssumeAux_iff true (pyStrip s)).mp h
  refine (hasAssumeAux_iff true s).mpr ⟨w1 ++ a, b ++ w2, ?_, fun _ => rfl, ?_, ?_⟩
  · rw [hs, hab]
    simp
  · intro c hc
    cases a with
    | nil =>
      simp only [List.append_nil] at hc
      exact isPySpace_not_word (hw1 c (List.mem_of_mem_getLast? (by simpa using hc)))
    | cons a0 as =>
      rw [List.getLast?_append_of_ne_nil _ (by simp)] at hc
      exact h2 c hc
  · exact assumeHere_append_ws hhere hw2

/-! ## True/false: shape of one processing step -/

lemma tfHandleLeading_shape (sentence : String) (qs : List Question) :
    (tfHandleLeading sentence qs).2 = qs ∨
      ∃ v, (v = 0 ∨ v = 1) ∧ (tfHandleLeading sentence qs).2 = updateLastCA qs v := by
  unfold tfHandleLeading
  cases h : tfLeadingMatch sentence.data with
  | none => left; rfl
  | some p =>
    obtain ⟨tok, g2⟩ := p
    by_cases hq : qs.isEmpty
    · left; simp [hq]
    · right
      exact ⟨convert_true_false_to_index tok, convert_tf_range tok, by simp [hq]⟩

lemma tfProcess_shape (rng : Nat → Nat) (sentences : List String) (i : Nat)
    (qs : List Question) (ctr : Nat) :
    ∃ base newq ni ctr2,
      tfProcess rng sentences i qs ctr = (base ++ [newq], ni, ctr2) ∧
      (base = qs ∨ ∃ v, (v = 0 ∨ v = 1) ∧ base = updateLastCA qs v) ∧
      newq.answers = ["True", "False"] ∧ newq.qtype = "true_false" ∧
      0 ≤ newq.correct_answer ∧ newq.correct_answer ≤ 1 ∧
      (ni = i + 1 ∨ (ni = i + 2 ∧ i + 1 < sentences.length ∧
        hasAssumeWord (sentences.getD (i + 1) "").data = false)) := by
  have hbase := tfHandleLeading_shape (String.mk (pyStrip (sentences.getD i "").data)) qs
  cases htm : tfTrailingMatch
      (tfHandleLeading (String.mk (pyStrip (sentences.getD i "").data)) qs).1.data with
  | some p =>
    refine ⟨(tfHandleLeading (String.mk (pyStrip (sentences.getD i "").data)) qs).2,
      create_question_dict (String.mk (pyStrip p.1) ++ ".") tfAnswers "true_false"
        (convert_true_false_to_index p.2),
      i + 1, ctr, ?_, hbase, rfl, rfl, ?_, ?_, Or.inl rfl⟩
    · simp only [tfProcess, tfParseWithTrailing, htm, Option.map_some']
    · rcases convert_tf_range p.2 with h | h <;> simp [create_question_dict, h]
    · rcases convert_tf_range p.2 with h | h <;> simp [create_question_dict, h]
  | none =>
    cases hfn : tfFindCorrectAnswerInNext sentences (i + 1) with
    | some c =>
      refine ⟨(tfHandleLeading (String.mk (pyStrip (sentences.getD i "").data)) qs).2,
        create_question_dict
          (tfHandleLeading (String.mk (pyStrip (sentences.getD i "").data)) qs).1
          tfAnswers "true_false" c,
        (if i + 1 < sentences.length ∧
            hasAssumeWord (sentences.getD (i + 1) "").data = false
         then i + 2 else i + 1),
        ctr, ?_, hbase, rfl, rfl, ?_, ?_, ?_⟩
      · simp only [tfProcess, tfParseWithTrailing, htm, Option.map_none', hfn]
      · rcases tfFindCorrectAnswerInNext_range hfn with h | h <;>
          simp [create_question_dict, h]
      · rcases tfFindCorrectAnswerInNext_range hfn with h | h <;>
          simp [create_question_dict, h]
      · by_cases hcond : i + 1 < sentences.length ∧
            hasAssumeWord (sentences.getD (i + 1) "").data = false
        · right
          exact ⟨by rw [if_pos hcond], hcond.1, hcond.2⟩
        · left
          rw [if_neg hcond]
    | none =>
      refine ⟨(tfHandleLeading (String.mk (pyStrip (sentences.getD i "").data)) qs).2,
        create_question_dict
          (tfHandleLeading (String.mk (pyStrip (sentences.getD i "").data)) qs).1
          tfAnswers "true_false" (get_random_correct_answer 1 (rng ctr)),
        i + 1, ctr + 1, ?_, hbase, rfl, rfl, ?_, ?_, Or.inl rfl⟩
      · simp only [tfProcess, tfParseWithTrailing, htm, Option.map_none', hfn]
      · exact (get_random_correct_answer_range (m := 1) (by norm_num) (rng ctr)).1
      · exact (get_random_correct_answer_range (m := 1) (by norm_num) (rng ctr)).2

/-! ## True/false: the scan loop -/

lemma tfLoop_master (rng : Nat → Nat) (sentences : List String) :
    ∀ (fuel i : Nat) (qs : List Question) (ctr : Nat),
      sentences.length - i ≤ fuel →
      ∃ base news,
        (tfLoop rng sentences fuel i qs ctr).1 = base ++ news ∧
        (base = qs ∨ ∃ v, (v = 0 ∨ v = 1) ∧ base = updateLastCA qs v) ∧
        news.length = ((sentences.drop i).countP fun s => hasAssumeWord (pyStrip s.data)) ∧
        ∀ q ∈ news, q.answers = ["True", "False"] ∧ q.qtype = "true_false" ∧
          0 ≤ q.correct_answer ∧ q.correct_answer ≤ 1
  | 0, i, qs, ctr, hfuel => by
    have hi : sentences.length ≤ i := by omega
    refine ⟨qs, [], by simp [tfLoop], Or.inl rfl, ?_, by simp⟩
    rw [List.drop_eq_nil_of_le hi]
    simp
  | fuel + 1, i, qs, ctr, hfuel => by
    by_cases hi : i < sentences.length
    · have hdrop : sentences.drop i = sentences[i] :: sentences.drop (i + 1) :=
        List.drop_eq_getElem_cons hi
      have hgetD : sentences.getD i "" = sentences[i] := List.getD_eq_getElem sentences "" hi
      by_cases hA : hasAssumeWord (pyStrip (sentences.getD i "").data) = true
      · obtain ⟨base1, newq, ni, ctr2, heq, hbase1, hans, hty, hca0, hca1, hni⟩ :=
          tfProcess_shape rng sentences i qs ctr
        have hloop : tfLoop rng sentences (fuel + 1) i qs ctr =
            tfLoop rng sentences fuel ni (base1 ++ [newq]) ctr2 := by
          simp only [tfLoop]
          rw [if_pos hi, if_pos hA, heq]
        have hni1 : i + 1 ≤ ni := by rcases hni with rfl | ⟨rfl, -, -⟩ <;> omega
        obtain ⟨base2, news2, heq2, hbase2, hlen2, hgood2⟩ :=
          tfLoop_master rng sentences fuel ni (base1 ++ [newq]) ctr2 (by omega)
        have hcount : ((sentences.drop i).countP fun s => hasAssumeWord (pyStrip s.data)) =
            1 + ((sentences.drop ni).countP fun s => hasAssumeWord (pyStrip s.data)) := by
          rw [hdrop, List.countP_cons]
          rw [hgetD] at hA
          rw [hA]
          rcases hni with rfl | ⟨rfl, hlt, hraw⟩
          · simp [Nat.add_comm]
          · have hdrop2 : sentences.drop (i + 1) =
                sentences[i + 1] :: sentences.drop (i + 2) := List.drop_eq_getElem_cons hlt
            have hgetD2 : sentences.getD (i + 1) "" = sentences[i + 1] :=
              List.getD_eq_getElem sentences "" hlt
            have hstrip : hasAssumeWord (pyStrip (sentences[i + 1]).data) = false := by
              by_contra hcon
              rw [Bool.not_eq_false] at hcon
              have := hasAssumeWord_of_strip hcon
              rw [hgetD2] at hraw
              rw [this] at hraw
              exact absurd hraw (by simp)
            rw [hdrop2, List.countP_cons, hstrip]
            simp [Nat.add_comm]
        -- resolve the base of the recursive call
        rcases hbase2 with rfl | ⟨v, hv, rfl⟩
        · refine ⟨base1, newq :: news2, ?_, hbase1, ?_, ?_⟩
          · rw [hloop, heq2]
            simp
          · simp only [List.length_cons, hcount, hlen2]
            omega
          · intro q hq
            rcases List.mem_cons.mp hq with rfl | hq
            · exact ⟨hans, hty, hca0, hca1⟩
            · exact hgood2 q hq
        · refine ⟨base1, { newq with correct_answer := v } :: news2, ?_, hbase1, ?_, ?_⟩
          · rw [hloop, heq2, updateLastCA_append_singleton]
            simp
          · simp only [List.length_cons, hcount, hlen2]
            omega
          · intro q hq
            rcases List.mem_cons.mp hq with rfl | hq
            · refine ⟨hans, hty, ?_⟩
              rcases hv with rfl | rfl <;> simp
            · exact hgood2 q hq
      · have hloop : tfLoop rng sentences (fuel + 1) i qs ctr =
            tfLoop rng sentences fuel (i + 1) qs ctr := by
          simp only [tfLoop]
          rw [if_pos hi, if_neg hA]
        obtain ⟨base2, news2, heq2, hbase2, hlen2, hgood2⟩ :=
          tfLoop_master rng sentences fuel (i + 1) qs ctr (by omega)
        refine ⟨base2, news2, by rw [hloop, heq2], hbase2, ?_, hgood2⟩
        rw [hdrop, List.countP_cons]
        rw [Bool.not_eq_true] at hA
        rw [hgetD] at hA
        rw [hA, hlen2]
        simp
    · refine ⟨qs, [], ?_, Or.inl rfl, ?_, by simp⟩
      · simp only [tfLoop]
        rw [if_neg hi]
        simp
      · rw [List.drop_eq_nil_of_le (by omega)]
        simp

/-! ## Prefix stability of the correct-answer scanner -/

lemma scanLitCI_decomp : ∀ (w s r : List Char), scanLitCI w s = some r →
    ∃ p, s = p ++ r ∧ p.map asciiLower = w.map asciiLower ∧
      ∀ v, scanLitCI w (p ++ v) = some v
  | [], s, r, h => by
    obtain rfl : s = r := by simpa [scanLitCI] using h
    exact ⟨[], rfl, rfl, fun v => rfl⟩
  | w :: ws, [], r, h => absurd h (by simp [scanLitCI])
  | w :: ws, c :: cs, r, h => by
    by_cases hc : asciiLower c = asciiLower w
    · simp only [scanLitCI, if_pos hc] at h
      obtain ⟨p', hp1, hp2, hp3⟩ := scanLitCI_decomp ws cs r h
      refine ⟨c :: p', by simp [hp1], by simp [hp2, hc], ?_⟩
      intro v
      simp only [List.cons_append, scanLitCI, if_pos hc]
      exact hp3 v
    · simp [scanLitCI, hc] at h

lemma map_lower_cons {p : List Char} {w0 : Char} {wrest : List Char}
    (h : p.map asciiLower = (w0 :: wrest).map asciiLower) :
    ∃ c0 p', p = c0 :: p' ∧ asciiLower c0 = asciiLower w0 := by
  cases p with
  | nil => simp at h
  | cons c0 p' =>
    simp only [List.map_cons, List.cons.injEq] at h
    exact ⟨c0, p', rfl, h.1⟩

lemma scanCorrectAnswerLead_decomp {s t : List Char}
    (h : scanCorrectAnswerLead s = some t) :
    ∃ p, s = p ++ t ∧
      (∃ c0 p0, p = c0 :: p0 ∧ isPySpace c0 = false) ∧
      (∀ c v, isPySpace c = false → c ≠ ':' →
        scanCorrectAnswerLead (p ++ c :: v) = some (c :: v)) := by
  simp only [scanCorrectAnswerLead] at h
  split at h
  · exact absurd h (by simp)
  · rename_i r1 h1
    split at h
    · exact absurd h (by simp)
    · rename_i r3 h3
      simp only [Option.some.injEq] at h
      obtain ⟨p1, hp1eq, hp1map, hp1st⟩ := scanLitCI_decomp _ _ _ h1
      obtain ⟨p2, hp2eq, hp2map, hp2st⟩ := scanLitCI_decomp _ _ _ h3
      have hp1map' : p1.map asciiLower = ('c' :: "orrect".data).map asciiLower := hp1map
      have hp2map' : p2.map asciiLower = ('a' :: "nswer".data).map asciiLower := hp2map
      obtain ⟨c0, p0, hp1cons, hc0low⟩ := map_lower_cons hp1map'
      have hc0 : isPySpace c0 = false :=
        not_space_of_asciiLower_c (by simpa using hc0low)
      obtain ⟨a0, p20, hp2cons, ha0low⟩ := map_lower_cons hp2map'
      have ha0 : isPySpace a0 = false :=
        not_space_of_asciiLower_a (by simpa using ha0low)
      have hw1all : ∀ a ∈ r1.takeWhile isPySpace, isPySpace a = true :=
        fun a ha => List.mem_takeWhile_imp ha
      have hr1 : r1 = r1.takeWhile isPySpace ++ (p2 ++ r3) := by
        conv_lhs => rw [← List.takeWhile_append_dropWhile (p := isPySpace) (l := r1)]
        rw [hp2eq]
      -- a helper for the whitespace run before the captured token
      have hdropPre : ∀ z : List Char,
          List.dropWhile isPySpace (r1.takeWhile isPySpace ++ (p2 ++ z)) = p2 ++ z := by
        intro z
        rw [dropWhile_append_of_all hw1all, hp2cons, List.cons_append,
          dropWhile_cons_of_neg ha0, ← List.cons_append, ← hp2cons]
      rcases hr3case : r3 with - | ⟨c3, r4⟩
      · -- no characters after `answer`: the optional colon is absent, t = []
        obtain rfl : t = [] := by
          rw [hr3case] at h
          simpa using h.symm
        refine ⟨p1 ++ (r1.takeWhile isPySpace ++ p2), ?_, ?_, ?_⟩
        · conv_lhs => rw [hp1eq]
          conv_lhs => rw [hr1]
          conv_lhs => rw [hr3case]
          simp
        · exact ⟨c0, p0 ++ (r1.takeWhile isPySpace ++ p2), by simp [hp1cons], hc0⟩
        · intro c v hcs hcc
          have hassoc : (p1 ++ (r1.takeWhile isPySpace ++ p2)) ++ c :: v =
              p1 ++ (r1.takeWhile isPySpace ++ (p2 ++ c :: v)) := by simp
          rw [hassoc]
          simp only [scanCorrectAnswerLead, hp1st, hdropPre, hp2st]
          rw [if_neg hcc]
          rw [dropWhile_cons_of_neg hcs]
      · by_cases hc3 : c3 = ':'
        · -- the optional colon is present
          subst hc3
          have ht : r4.dropWhile isPySpace = t := by
            rw [hr3case] at h
            simpa using h
          have hw2all : ∀ a ∈ r4.takeWhile isPySpace, isPySpace a = true :=
            fun a ha => List.mem_takeWhile_imp ha
          have hr4 : r4 = r4.takeWhile isPySpace ++ t := by
            conv_lhs => rw [← List.takeWhile_append_dropWhile (p := isPySpace) (l := r4)]
            rw [ht]
          refine ⟨p1 ++ (r1.takeWhile isPySpace ++ (p2 ++ (':' :: r4.takeWhile isPySpace))),
            ?_, ?_, ?_⟩
          · conv_lhs => rw [hp1eq]
            conv_lhs => rw [hr1]
            conv_lhs => rw [hr3case]
            conv_lhs => rw [hr4]
            simp
          · exact ⟨c0, p0 ++ (r1.takeWhile isPySpace ++ (p2 ++ (':' :: r4.takeWhile isPySpace))),
              by simp [hp1cons], hc0⟩
          · intro c v hcs hcc
            have hassoc : (p1 ++ (r1.takeWhile isPySpace ++
                (p2 ++ (':' :: r4.takeWhile isPySpace)))) ++ c :: v =
                p1 ++ (r1.takeWhile isPySpace ++
                  (p2 ++ (':' :: (r4.takeWhile isPySpace ++ c :: v)))) := by simp
            rw [hassoc]
            simp only [scanCorrectAnswerLead, hp1st, hdropPre, hp2st, if_true]
            rw [dropWhile_append_of_all hw2all, dropWhile_cons_of_neg hcs]
        · -- a character follows `answer` but it is not a colon
          have ht : r3.dropWhile isPySpace = t := by
            rw [hr3case] at h ⊢
            simpa [hc3] using h
          have hw2all : ∀ a ∈ r3.takeWhile isPySpace, isPySpace a = true :=
            fun a ha => List.mem_takeWhile_imp ha
          have hr3' : r3 = r3.takeWhile isPySpace ++ t := by
            conv_lhs => rw [← List.takeWhile_append_dropWhile (p := isPySpace) (l := r3)]
            rw [ht]
          refine ⟨p1 ++ (r1.takeWhile isPySpace ++ (p2 ++ r3.takeWhile isPySpace)), ?_, ?_, ?_⟩
          · conv_lhs => rw [hp1eq]
            conv_lhs => rw [hr1]
            conv_lhs => rw [hr3']
            simp
          · exact ⟨c0, p0 ++ (r1.takeWhile isPySpace ++ (p2 ++ r3.takeWhile isPySpace)),
              by simp [hp1cons], hc0⟩
          · intro c v hcs hcc
            have hassoc : (p1 ++ (r1.takeWhile isPySpace ++
                (p2 ++ r3.takeWhile isPySpace))) ++ c :: v =
                p1 ++ (r1.takeWhile isPySpace ++
                  (p2 ++ (r3.takeWhile isPySpace ++ c :: v))) := by simp
            rw [hassoc]
            simp only [scanCorrectAnswerLead, hp1st, hdropPre, hp2st]
            cases hw2 : r3.takeWhile isPySpace with
            | nil =>
              simp only [List.nil_append]
              rw [if_neg hcc]
              rw [dropWhile_cons_of_neg hcs]
            | cons d w2x =>
              have hd : isPySpace d = true := hw2all d (by rw [hw2]; simp)
              simp only [List.cons_append]
              rw [if_neg (space_not_colon hd)]
              rw [← List.cons_append, ← hw2,
                dropWhile_append_of_all hw2all, dropWhile_cons_of_neg hcs]

lemma scanCAmc_decomp {s : List Char} {ch : Char} {r : List Char}
    (h : scanCAmc s = some (ch, r)) :
    ∃ p, s = (p ++ [ch]) ++ r ∧
      (∃ c0 p0, p = c0 :: p0 ∧ isPySpace c0 = false) ∧
      ∀ v, scanCAmc ((p ++ [ch]) ++ v) = some (ch, v) := by
  have hch : ch ∈ mcLetters := scanCAmc_letter h
  simp only [scanCAmc] at h
  split at h
  · rename_i c rest hlead
    by_cases hc : c ∈ mcLetters
    · rw [if_pos hc] at h
      simp only [Option.some.injEq, Prod.mk.injEq] at h
      obtain ⟨rfl, rfl⟩ := h
      obtain ⟨p, hs, hhead, hstab⟩ := scanCorrectAnswerLead_decomp hlead
      refine ⟨p, by simp [hs], hhead, ?_⟩
      intro v
      have hst := hstab c v (mcLetters_not_space hch) (mcLetters_not_colon hch)
      simp only [List.append_assoc, List.singleton_append]
      simp only [scanCAmc, hst, if_pos hch]
    · rw [if_neg hc] at h
      exact absurd h (by simp)
  · exact absurd h (by simp)

/-! ## Claim theorems -/

/-- C1: for every record emitted by either extractor, `correct_answer` is
present and within range: in `[0, 3]` for a multiple-choice record and in
`[0, 1]` for a true/false record, whether set from an explicit annotation
or by the random fallback. -/
theorem claim_C1 :
    (∀ (lines : List String) (rng : Nat → Nat) (ctr : Nat) (qs : List Question) (ctr2 : Nat),
      MultipleChoiceParser.parse lines rng ctr = .ok (qs, ctr2) →
      ∀ q ∈ qs, q.qtype = "multiple_choice" ∧ 0 ≤ q.correct_answer ∧ q.correct_answer ≤ 3) ∧
    (∀ (lines : List String) (rng : Nat → Nat) (ctr : Nat),
      ∀ q ∈ (TrueFalseParser.parse lines rng ctr).1,
      q.qtype = "true_false" ∧ 0 ≤ q.correct_answer ∧ q.correct_answer ≤ 1) := by
  constructor
  · intro lines rng ctr qs ctr2 h q hq
    exact mcLoopGo_good lines.length 0 ctr [] (by simp) h q hq
  · intro lines rng ctr q hq
    obtain ⟨base, news, heq, hbase, hlen, hgood⟩ :=
      tfLoop_master rng (pySplitSentences (String.intercalate " " lines))
        (pySplitSentences (String.intercalate " " lines)).length 0 [] ctr (by omega)
    have hb : base = [] := by
      rcases hbase with h' | ⟨v, hv, h'⟩
      · exact h'
      · simpa [updateLastCA] using h'
    have hparse : (TrueFalseParser.parse lines rng ctr).1 = news := by
      simp only [TrueFalseParser.parse]
      rw [heq, hb]
      simp
    rw [hparse] at hq
    obtain ⟨-, ht, h0, h1⟩ := hgood q hq
    exact ⟨ht, h0, h1⟩

/-- Witness for C1 at concrete inputs: the multiple-choice scenario-A
record and the true/false scenario-C record. -/
theorem claim_C1_witness :
    (({ question := "What is 2+2?", answers := ["3", "4", "5", "6"], qtype := "multiple_choice", correct_answer := 1 } : Question).qtype = "multiple_choice" ∧
      (0 : Int) ≤ ({ question := "What is 2+2?", answers := ["3", "4", "5", "6"], qtype := "multiple_choice", correct_answer := 1 } : Question).correct_answer ∧
      ({ question := "What is 2+2?", answers := ["3", "4", "5", "6"], qtype := "multiple_choice", correct_answer := 1 } : Question).correct_answer ≤ 3) ∧
    (({ question := "Assume X is valid.", answers := ["True", "False"], qtype := "true_false", correct_answer := 1 } : Question).qtype = "true_false" ∧
      (0 : Int) ≤ ({ question := "Assume X is valid.", answers := ["True", "False"], qtype := "true_false", correct_answer := 1 } : Question).correct_answer ∧
      ({ question := "Assume X is valid.", answers := ["True", "False"], qtype := "true_false", correct_answer := 1 } : Question).correct_answer ≤ 1) :=
  ⟨claim_C1.1 ["Question", "What is 2+2?", "A. 3", "B. 4", "C. 5", "D. 6", "Correct Answer: B"]
      (fun _ => 0) 0
      [{ question := "What is 2+2?", answers := ["3", "4", "5", "6"], qtype := "multiple_choice", correct_answer := 1 }] 0 rfl _ (by decide),
   claim_C1.2 ["Assume X is valid.", "Correct Answer: False"] (fun _ => 0) 0 _ (by decide)⟩

/-- C2: on the scenario-A line list the multiple-choice extractor yields
exactly one record with the given question, answers in order, and
`correct_answer = 1`, for any state of the random oracle. -/
theorem claim_C2 : ∀ (rng : Nat → Nat) (ctr : Nat),
    MultipleChoiceParser.parse
        ["Question", "What is 2+2?", "A. 3", "B. 4", "C. 5", "D. 6", "Correct Answer: B"]
        rng ctr =
      .ok ([{ question := "What is 2+2?", answers := ["3", "4", "5", "6"],
              qtype := "multiple_choice", correct_answer := 1 }], ctr) :=
  fun _ _ => rfl

/-- C3: every record of the true/false extractor has answers exactly
`["True", "False"]`, and one record is emitted per sentence unit whose
stripped form contains `assume` as a case-insensitive whole word — so
sentences with only `assumed`/`assumes` (which the word-boundary search
rejects, as the last conjuncts check) produce no record. -/
theorem claim_C3 : ∀ (lines : List String) (rng : Nat → Nat) (ctr : Nat),
    (∀ q ∈ (TrueFalseParser.parse lines rng ctr).1, q.answers = ["True", "False"]) ∧
    (TrueFalseParser.parse lines rng ctr).1.length =
      ((pySplitSentences (String.intercalate " " lines)).countP
        (fun s => hasAssumeWord (pyStrip s.data))) ∧
    hasAssumeWord (pyStrip "They assumed it.".data) = false ∧
    hasAssumeWord (pyStrip "She assumes it.".data) = false ∧
    hasAssumeWord (pyStrip "ASSUME nothing.".data) = true := by
  intro lines rng ctr
  obtain ⟨base, news, heq, hbase, hlen, hgood⟩ :=
    tfLoop_master rng (pySplitSentences (String.intercalate " " lines))
      (pySplitSentences (String.intercalate " " lines)).length 0 [] ctr (by omega)
  have hb : base = [] := by
    rcases hbase with h' | ⟨v, hv, h'⟩
    · exact h'
    · simpa [updateLastCA] using h'
  have hparse : (TrueFalseParser.parse lines rng ctr).1 = news := by
    simp only [TrueFalseParser.parse]
    rw [heq, hb]
    simp
  refine ⟨?_, ?_, rfl, rfl, rfl⟩
  · intro q hq
    rw [hparse] at hq
    exact (hgood q hq).1
  · rw [hparse, hlen, List.drop_zero]

/-- Witness for C3 at the scenario-C input. -/
theorem claim_C3_witness :
    ({ question := "Assume X is valid.", answers := ["True", "False"],
       qtype := "true_false", correct_answer := 1 } : Question).answers = ["True", "False"] ∧
    (TrueFalseParser.parse ["Assume X is valid.", "Correct Answer: False"]
        (fun _ => 0) 0).1.length =
      ((pySplitSentences
          (String.intercalate " " ["Assume X is valid.", "Correct Answer: False"])).countP
        (fun s => hasAssumeWord (pyStrip s.data))) :=
  ⟨(claim_C3 ["Assume X is valid.", "Correct Answer: False"] (fun _ => 0) 0).1 _ (by decide),
   (claim_C3 ["Assume X is valid.", "Correct Answer: False"] (fun _ => 0) 0).2.1⟩

/-- C9: once a record has been appended, later steps of the true/false scan
never change its `question`, `answers` or `qtype`; every record except the
one that was last at the time keeps its `correct_answer` as well, and the
list only grows. -/
theorem claim_C9 : ∀ (rng : Nat → Nat) (sentences : List String) (fuel i : Nat)
    (qs : List Question) (ctr : Nat),
    sentences.length - i ≤ fuel →
    qs.length ≤ (tfLoop rng sentences fuel i qs ctr).1.length ∧
    (∀ j, j + 1 < qs.length → (tfLoop rng sentences fuel i qs ctr).1[j]? = qs[j]?) ∧
    (∀ j, j + 1 = qs.length → ∃ q q2, qs[j]? = some q ∧
      (tfLoop rng sentences fuel i qs ctr).1[j]? = some q2 ∧
      q2.question = q.question ∧ q2.answers = q.answers ∧ q2.qtype = q.qtype) := by
  intro rng sentences fuel i qs ctr hfuel
  obtain ⟨base, news, heq, hbase, hlen, hgood⟩ :=
    tfLoop_master rng sentences fuel i qs ctr hfuel
  have hblen : base.length = qs.length := by
    rcases hbase with rfl | ⟨v, hv, rfl⟩
    · rfl
    · exact updateLastCA_length qs v
  refine ⟨?_, ?_, ?_⟩
  · rw [heq, List.length_append, hblen]
    omega
  · intro j hj
    rw [heq, List.getElem?_append_left (by omega : j < base.length)]
    rcases hbase with h' | ⟨v, hv, h'⟩
    · rw [h']
    · rw [h']
      exact updateLastCA_getElem?_early qs v j hj
  · intro j hj
    rw [heq, List.getElem?_append_left (by omega : j < base.length)]
    rcases hbase with h' | ⟨v, hv, h'⟩
    · rw [h']
      have hjlen : j < qs.length := by omega
      exact ⟨qs[j], qs[j], List.getElem?_eq_getElem hjlen,
        List.getElem?_eq_getElem hjlen, rfl, rfl, rfl⟩
    · rw [h']
      obtain ⟨q, hq, hq2⟩ := updateLastCA_getElem?_last qs v j hj
      exact ⟨q, { q with correct_answer := v }, hq, hq2, rfl, rfl, rfl⟩

/-- Witness for C9: a two-record list fed through the scan of a sentence
that retroactively overwrites the last record's answer. -/
theorem claim_C9_witness :
    ([{ question := "P", answers := ["True", "False"], qtype := "true_false", correct_answer := 0 }, { question := "Q", answers := ["True", "False"], qtype := "true_false", correct_answer := 1 }] : List Question).length ≤ (tfLoop (fun _ => 0) ["Correct Answer: True Assume Y holds."] 1 0 [{ question := "P", answers := ["True", "False"], qtype := "true_false", correct_answer := 0 }, { question := "Q", answers := ["True", "False"], qtype := "true_false", correct_answer := 1 }] 0).1.length ∧
    (tfLoop (fun _ => 0) ["Correct Answer: True Assume Y holds."] 1 0 [{ question := "P", answers := ["True", "False"], qtype := "true_false", correct_answer := 0 }, { question := "Q", answers := ["True", "False"], qtype := "true_false", correct_answer := 1 }] 0).1[0]? = ([{ question := "P", answers := ["True", "False"], qtype := "true_false", correct_answer := 0 }, { question := "Q", answers := ["True", "False"], qtype := "true_false", correct_answer := 1 }] : List Question)[0]? ∧
    ∃ q q2, ([{ question := "P", answers := ["True", "False"], qtype := "true_false", correct_answer := 0 }, { question := "Q", answers := ["True", "False"], qtype := "true_false", correct_answer := 1 }] : List Question)[1]? = some q ∧
      (tfLoop (fun _ => 0) ["Correct Answer: True Assume Y holds."] 1 0 [{ question := "P", answers := ["True", "False"], qtype := "true_false", correct_answer := 0 }, { question := "Q", answers := ["True", "False"], qtype := "true_false", correct_answer := 1 }] 0).1[1]? = some q2 ∧
      q2.question = q.question ∧ q2.answers = q.answers ∧ q2.qtype = q.qtype := by
  have h := claim_C9 (fun _ => 0) ["Correct Answer: True Assume Y holds."] 1 0
    [{ question := "P", answers := ["True", "False"], qtype := "true_false", correct_answer := 0 }, { question := "Q", answers := ["True", "False"], qtype := "true_false", correct_answer := 1 }] 0 (by decide)
  exact ⟨h.1, h.2.1 0 (by decide), h.2.2 1 (by decide)⟩

/-- C4: a leading correct-answer fragment converts its token (True/T to 0,
False/F to 1) and overwrites the `correct_answer` of the most recently
emitted record when one exists — with no prior record the fragment is
dropped — and the sentence is truncated to group 2 (stripped); scenario D:
on `["Correct Answer: True Assume Y holds."]` with one prior record, the
prior record's answer becomes 0 and a new record is emitted for
"Assume Y holds." with a random fallback answer. -/
theorem claim_C4 :
    (∀ (s : String) (qs : List Question) (tok g2 : List Char),
      tfLeadingMatch s.data = some (tok, g2) →
        tfHandleLeading s qs =
          (String.mk (pyStrip g2),
           if qs.isEmpty then qs else updateLastCA qs (convert_true_false_to_index tok)) ∧
        (convert_true_false_to_index tok = 0 ∨ convert_true_false_to_index tok = 1) ∧
        (convert_true_false_to_index tok = 0 ↔
          (tok.map asciiUpper = "TRUE".data ∨ tok.map asciiUpper = "T".data))) ∧
    (∀ (rng : Nat → Nat) (ctr : Nat) (prior : Question),
      tfLoop rng ["Correct Answer: True Assume Y holds."] 1 0 [prior] ctr =
        ([{ prior with correct_answer := 0 },
          { question := "Assume Y holds.", answers := ["True", "False"],
            qtype := "true_false",
            correct_answer := get_random_correct_answer 1 (rng ctr) }], ctr + 1)) := by
  constructor
  · intro s qs tok g2 h
    refine ⟨?_, convert_tf_range tok, ?_⟩
    · simp only [tfHandleLeading, h]
    · unfold convert_true_false_to_index
      split
      · rename_i hcond
        simp [hcond]
      · rename_i hcond
        simp [hcond]
  · intro rng ctr prior
    rfl

/-- Witness for C4: a leading `T` fragment with one prior record, and the
scenario-D run. -/
theorem claim_C4_witness :
    (tfHandleLeading "Correct Answer: T Go on."
        [{ question := "P", answers := ["True", "False"], qtype := "true_false", correct_answer := 1 }] =
      ("Go on.",
       [{ question := "P", answers := ["True", "False"], qtype := "true_false", correct_answer := 0 }]) ∧
      (convert_true_false_to_index "T".data = 0 ∨ convert_true_false_to_index "T".data = 1) ∧
      (convert_true_false_to_index "T".data = 0 ↔
        ("T".data.map asciiUpper = "TRUE".data ∨ "T".data.map asciiUpper = "T".data))) ∧
    tfLoop (fun _ => 1) ["Correct Answer: True Assume Y holds."] 1 0
        [{ question := "P", answers := ["True", "False"], qtype := "true_false", correct_answer := 1 }] 0 =
      ([{ question := "P", answers := ["True", "False"], qtype := "true_false", correct_answer := 0 },
        { question := "Assume Y holds.", answers := ["True", "False"], qtype := "true_false",
          correct_answer := get_random_correct_answer 1 1 }], 1) :=
  ⟨claim_C4.1 "Correct Answer: T Go on."
      [{ question := "P", answers := ["True", "False"], qtype := "true_false", correct_answer := 1 }]
      "T".data "Go on.".data rfl,
   claim_C4.2 (fun _ => 1) 0
     { question := "P", answers := ["True", "False"], qtype := "true_false", correct_answer := 1 }⟩

/-- C5: when an assumption sentence carries no inline answer (no leading or
trailing fragment) and the next sentence starts with a correct-answer
annotation, the token becomes the record's answer; the scan advances past
the annotation sentence unless that sentence itself contains whole-word
`assume`; scenario C: `["Assume X is valid.", "Correct Answer: False"]`
yields one record with `correct_answer = 1` and the second sentence is
fully consumed. -/
theorem claim_C5 :
    (∀ (sentences : List String) (i : Nat) (qs : List Question) (rng : Nat → Nat)
        (ctr : Nat) (c : Int),
      tfLeadingMatch (pyStrip (sentences.getD i "").data) = none →
      tfParseWithTrailing (String.mk (pyStrip (sentences.getD i "").data)) = none →
      tfFindCorrectAnswerInNext sentences (i + 1) = some c →
      tfProcess rng sentences i qs ctr =
        (qs ++ [create_question_dict (String.mk (pyStrip (sentences.getD i "").data))
            tfAnswers "true_false" c],
         if i + 1 < sentences.length ∧ hasAssumeWord (sentences.getD (i + 1) "").data = false
         then i + 2 else i + 1,
         ctr)) ∧
    (∀ (rng : Nat → Nat) (ctr : Nat),
      TrueFalseParser.parse ["Assume X is valid.", "Correct Answer: False"] rng ctr =
        ([{ question := "Assume X is valid.", answers := ["True", "False"],
            qtype := "true_false", correct_answer := 1 }], ctr)) := by
  constructor
  · intro sentences i qs rng ctr c hlead htrail hnext
    have hhl : tfHandleLeading (String.mk (pyStrip (sentences.getD i "").data)) qs =
        (String.mk (pyStrip (sentences.getD i "").data), qs) := by
      simp only [tfHandleLeading]
      rw [hlead]
    simp only [tfProcess, hhl, htrail, hnext]
  · intro rng ctr
    rfl

/-- Witness for C5 at the scenario-C input. -/
theorem claim_C5_witness :
    tfProcess (fun _ => 0) ["Assume X is valid.", "Correct Answer: False"] 0 [] 0 =
      ([{ question := "Assume X is valid.", answers := ["True", "False"],
          qtype := "true_false", correct_answer := 1 }], 2, 0) ∧
    TrueFalseParser.parse ["Assume X is valid.", "Correct Answer: False"] (fun _ => 0) 0 =
      ([{ question := "Assume X is valid.", answers := ["True", "False"],
          qtype := "true_false", correct_answer := 1 }], 0) :=
  ⟨claim_C5.1 ["Assume X is valid.", "Correct Answer: False"] 0 [] (fun _ => 0) 0 1 rfl rfl rfl,
   claim_C5.2 (fun _ => 0) 0⟩

/-- Counterexample for C6 as stated: the spec's literal pattern
`^<LABEL>[.|)]\s*(.+)$` accepts the line `"A| 3"` (the class `[.|)]`
contains `'|'`), but the code's `_parse_answers` rejects that line, so
acceptance is not "exactly when" the spec's pattern matches. -/
theorem claim_C6_counterexample :
    specAnswerLineMatch 'A' "A| 3" = some "3".data ∧
    mcAnswerLineMatch 'A' "A| 3" = none ∧
    mcParseAnswers ["A| 3", "B. 4", "C. 5", "D. 6"] 0 "Some question" =
      .error (mcBadAnswerMsg "Some question" 'A' "A| 3") :=
  ⟨rfl, rfl, rfl⟩

/-- C6 (amended: with the code's character class `[.)]` — delimiter `'.'`
or `')'` only): an answer window is accepted exactly when each of the four
lines matches `^<LABEL>[.)]\s*(.+)$` case-insensitively with the expected
label for its position, and then the stored texts are the trimmed captures,
in A, B, C, D order. -/
theorem claim_C6 : ∀ (lines : List String) (i : Nat) (qt : String),
    (∀ res, mcParseAnswers lines i qt = .ok res →
      res.length = 4 ∧
      ∀ k, k < 4 →
        ∃ line g, lines[i + k]? = some line ∧
          mcAnswerLineMatch (mcAnswerLabels.getD k 'A') line = some g ∧
          res[k]? = some (String.mk (pyStrip g))) ∧
    ((∀ k, k < 4 →
        ∃ line g, lines[i + k]? = some line ∧
          mcAnswerLineMatch (mcAnswerLabels.getD k 'A') line = some g) →
      ∃ res, mcParseAnswers lines i qt = .ok res) := by
  intro lines i qt
  constructor
  · intro res h
    obtain ⟨gs, hres, hlen, hall⟩ := mcParseAnswersAux_ok mcAnswerLabels i [] h
    constructor
    · rw [hres]
      simp [hlen, mcAnswerLabels]
    · intro k hk
      obtain ⟨line, g, h1, h2, h3⟩ := hall k (by simpa [mcAnswerLabels] using hk)
      refine ⟨line, g, h1, h2, ?_⟩
      rw [hres]
      simp only [List.nil_append, List.getElem?_map, h3, Option.map_some']
  · intro hall
    exact mcParseAnswersAux_ok_of mcAnswerLabels i []
      (fun k hk => hall k (by simpa [mcAnswerLabels] using hk))

/-- Witness for C6 at a window mixing both delimiters and cases. -/
theorem claim_C6_witness :
    (["1", "2", "3", "4"] : List String).length = 4 ∧
    (∃ line g, (["A. 1", "B) 2", "c. 3", "D. 4"] : List String)[0 + 2]? = some line ∧
      mcAnswerLineMatch (mcAnswerLabels.getD 2 'A') line = some g ∧
      (["1", "2", "3", "4"] : List String)[2]? = some (String.mk (pyStrip g))) ∧
    ∃ res, mcParseAnswers ["A. 1", "B) 2", "c. 3", "D. 4"] 0 "Q" = .ok res := by
  have h := claim_C6 ["A. 1", "B) 2", "c. 3", "D. 4"] 0 "Q"
  have h1 := h.1 ["1", "2", "3", "4"] rfl
  refine ⟨h1.1, h1.2 2 (by decide), h.2 ?_⟩
  intro k hk
  interval_cases k
  · exact ⟨"A. 1", "1".data, rfl, rfl⟩
  · exact ⟨"B) 2", "2".data, rfl, rfl⟩
  · exact ⟨"c. 3", "3".data, rfl, rfl⟩
  · exact ⟨"D. 4", "4".data, rfl, rfl⟩

/-! ## Error-message containment helpers -/

lemma label_infix_missing (qt : String) (l : Char) :
    [l] <:+: (mcMissingAnswerMsg qt l).data :=
  ⟨("Question '" ++ takeFifty qt ++
      "...' does not have 4 answer choices. Missing answer ").data, [],
    by simp [mcMissingAnswerMsg, String.data_append]⟩

lemma excerpt_infix_missing (qt : String) (l : Char) :
    (takeFifty qt).data <:+: (mcMissingAnswerMsg qt l).data :=
  ⟨"Question '".data,
    ("...' does not have 4 answer choices. Missing answer " ++ String.mk [l]).data,
    by simp [mcMissingAnswerMsg, String.data_append, List.append_assoc]⟩

lemma label_infix_bad (qt : String) (l : Char) (line : String) :
    [l] <:+: (mcBadAnswerMsg qt l line).data :=
  ⟨("Question '" ++ takeFifty qt ++
      "...' has improperly formatted answer. Expected answer labeled '").data,
    ("', but found: '" ++ line ++ "'").data,
    by simp [mcBadAnswerMsg, String.data_append, List.append_assoc]⟩

lemma excerpt_infix_bad (qt : String) (l : Char) (line : String) :
    (takeFifty qt).data <:+: (mcBadAnswerMsg qt l line).data :=
  ⟨"Question '".data,
    ("...' has improperly formatted answer. Expected answer labeled '" ++ String.mk [l] ++
      "', but found: '" ++ line ++ "'").data,
    by simp [mcBadAnswerMsg, String.data_append, List.append_assoc]⟩

/-- C7: when the four-line answer window of a multiple-choice block is
missing a line or fails to match its expected label, the whole extractor
invocation returns a fatal error (no records) whose message names the first
missing/expected label and contains the prompt excerpt. -/
theorem claim_C7 : ∀ (lines : List String) (rng : Nat → Nat) (ctr : Nat) (i j : Nat),
    (∀ k, k < i → isQuestionMarker (lines.getD k "") = false) →
    i < lines.length →
    isQuestionMarker (lines.getD i "") = true →
    i + 1 < lines.length →
    j < 4 →
    (∀ k, k < j → ∃ line g, lines[i + 2 + k]? = some line ∧
      mcAnswerLineMatch (mcAnswerLabels.getD k 'A') line = some g) →
    (lines[i + 2 + j]? = none ∨
      ∃ line, lines[i + 2 + j]? = some line ∧
        mcAnswerLineMatch (mcAnswerLabels.getD j 'A') line = none) →
    ∃ msg, MultipleChoiceParser.parse lines rng ctr = .error msg ∧
      [mcAnswerLabels.getD j 'A'] <:+: msg.data ∧
      (takeFifty (lines.getD (i + 1) "")).data <:+: msg.data := by
  intro lines rng ctr i j hpre hi hmark hnext hj hbefore hfail
  have herr := @mcParseAnswersAux_first_error lines (lines.getD (i + 1) "")
    mcAnswerLabels j (i + 2) [] (by simpa [mcAnswerLabels] using hj) hbefore hfail
  have hloop : ∀ msg, mcParseSingle lines i rng ctr = .error msg →
      MultipleChoiceParser.parse lines rng ctr = .error msg := by
    intro msg hsingle
    simp only [MultipleChoiceParser.parse]
    have hsplit : lines.length = (lines.length - i) + i := by omega
    rw [hsplit]
    rw [mcLoopGo_skip i (lines.length - i) 0 ctr []
      (fun k hk => by simpa using hpre k hk) (by omega)]
    simp only [Nat.zero_add]
    obtain ⟨f2, hf2⟩ : ∃ f2, lines.length - i = f2 + 1 := ⟨lines.length - i - 1, by omega⟩
    rw [hf2]
    simp only [mcLoopGo]
    rw [if_pos hi, if_pos hmark, hsingle]
  have hsingle : ∀ msg, mcParseAnswersAux lines (lines.getD (i + 1) "") mcAnswerLabels (i + 2) [] =
      .error msg → mcParseSingle lines i rng ctr = .error msg := by
    intro msg hmsg
    simp only [mcParseSingle]
    rw [if_neg (by omega)]
    simp only [mcParseAnswers, hmsg]
  rcases herr with ⟨he, -⟩ | ⟨line, he, -⟩
  · exact ⟨mcMissingAnswerMsg (lines.getD (i + 1) "") (mcAnswerLabels.getD j 'A'),
      hloop _ (hsingle _ he), label_infix_missing _ _, excerpt_infix_missing _ _⟩
  · exact ⟨mcBadAnswerMsg (lines.getD (i + 1) "") (mcAnswerLabels.getD j 'A') line,
      hloop _ (hsingle _ he), label_infix_bad _ _ _, excerpt_infix_bad _ _ _⟩

/-- Witness for C7: a block whose third answer line carries the wrong
label. -/
theorem claim_C7_witness :
    ∃ msg, MultipleChoiceParser.parse
        ["note", "Question 1", "What?", "A. 1", "B. 2", "Z. 3", "D. 4"] (fun _ => 0) 0 =
        .error msg ∧
      [mcAnswerLabels.getD 2 'A'] <:+: msg.data ∧
      (takeFifty (["note", "Question 1", "What?", "A. 1", "B. 2", "Z. 3", "D. 4"].getD 2 "")).data
        <:+: msg.data := by
  apply claim_C7 ["note", "Question 1", "What?", "A. 1", "B. 2", "Z. 3", "D. 4"]
    (fun _ => 0) 0 1 2
  · decide
  · decide
  · decide
  · decide
  · decide
  · intro k hk
    interval_cases k
    · exact ⟨"A. 1", "1".data, rfl, rfl⟩
    · exact ⟨"B. 2", "2".data, rfl, rfl⟩
  · right
    exact ⟨"Z. 3", rfl, rfl⟩

/-- C8: the selection boundary accepts every registered type key and the
sentinel `"all"` (the dispatch runs), rejects every other key with an error
naming the unknown key, and `get_parser` returns the registered extractor
for a registered key and a descriptive error naming the key otherwise. -/
theorem claim_C8 :
    (∀ k, k ∉ validTypes → ∀ text rng,
      parse_docx_questions text k rng = .error (invalidTypeMsg k) ∧
        k.data <:+: (invalidTypeMsg k).data) ∧
    (∀ k text rng, k ∈ validTypes →
      parse_docx_questions text k rng = dispatchQuestionType (normalizeLines text) k rng) ∧
    QuestionParserRegistry.get_parser "multiple_choice" = .ok ParserKind.mc ∧
    QuestionParserRegistry.get_parser "true_false" = .ok ParserKind.tf ∧
    (∀ k, k ∉ QuestionParserRegistry.get_registered_types →
      QuestionParserRegistry.get_parser k = .error (noParserMsg k) ∧
        k.data <:+: (noParserMsg k).data) := by
  refine ⟨?_, ?_, rfl, rfl, ?_⟩
  · intro k hk text rng
    constructor
    · unfold parse_docx_questions
      rw [if_neg hk]
    · exact ⟨"Invalid question_type '".data,
        ("'. Must be one of " ++ pyListRepr validTypes).data,
        by simp [invalidTypeMsg, String.data_append, List.append_assoc]⟩
  · intro k text rng hk
    unfold parse_docx_questions
    rw [if_pos hk]
  · intro k hk
    have hk2 : k ≠ "multiple_choice" ∧ k ≠ "true_false" := by
      constructor <;> intro h <;> apply hk <;> rw [h] <;> decide
    have hlk : registryEntries.lookup k = none := by
      have b1 : (k == "multiple_choice") = false := beq_eq_false_iff_ne.mpr hk2.1
      have b2 : (k == "true_false") = false := beq_eq_false_iff_ne.mpr hk2.2
      simp [registryEntries, List.lookup, b1, b2]
    constructor
    · unfold QuestionParserRegistry.get_parser
      rw [hlk]
    · exact ⟨"No parser registered for type '".data, "'".data,
        by simp [noParserMsg, String.data_append, List.append_assoc]⟩

/-- Witness for C8 at an unregistered key and at the sentinel. -/
theorem claim_C8_witness :
    (parse_docx_questions "Question" "bogus" (fun _ => 0) = .error (invalidTypeMsg "bogus") ∧
      "bogus".data <:+: (invalidTypeMsg "bogus").data) ∧
    parse_docx_questions "x" "all" (fun _ => 0) =
      dispatchQuestionType (normalizeLines "x") "all" (fun _ => 0) ∧
    (QuestionParserRegistry.get_parser "bogus" = .error (noParserMsg "bogus") ∧
      "bogus".data <:+: (noParserMsg "bogus").data) :=
  ⟨claim_C8.1 "bogus" (by decide) "Question" (fun _ => 0),
   claim_C8.2.1 "all" "x" (fun _ => 0) (by decide),
   claim_C8.2.2.2.2 "bogus" (by decide)⟩

/-- C10: the multiple-choice correct-answer detection is a prefix match:
whenever the pattern `^correct\s*answer:?\s*([A-D])` matches all of `s`,
any line `s ++ t` with arbitrary trailing text is still recognised, the
captured letter is converted to an index, and the trailing text is
discarded without error. -/
theorem claim_C10 : ∀ (s t : List Char) (ch : Char) (r : List Char),
    scanCAmc s = some (ch, r) →
    parseCorrectAnswerLineMC (String.mk (s ++ t)) = some (convert_letter_to_index ch) ∧
    mcFindCorrectAnswer [String.mk (s ++ t)] 0 = some (convert_letter_to_index ch) := by
  intro s t ch r h
  obtain ⟨p, hs, ⟨c0, p0, hpcons, hc0⟩, hstab⟩ := scanCAmc_decomp h
  have hchns : isPySpace ch = false := mcLetters_not_space (scanCAmc_letter h)
  have hst : s ++ t = (p ++ [ch]) ++ (r ++ t) := by
    rw [hs, List.append_assoc]
  have hL : pyStripLeft ((p ++ [ch]) ++ (r ++ t)) = (p ++ [ch]) ++ (r ++ t) := by
    unfold pyStripLeft
    rw [hpcons]
    simp only [List.cons_append]
    rw [dropWhile_cons_of_neg hc0]
  have hstrip : pyStrip ((p ++ [ch]) ++ (r ++ t)) = (p ++ [ch]) ++ pyStripRight (r ++ t) := by
    unfold pyStrip
    rw [hL]
    exact pyStripRight_append hchns
  have hmain : parseCorrectAnswerLineMC (String.mk (s ++ t)) =
      some (convert_letter_to_index ch) := by
    simp only [parseCorrectAnswerLineMC]
    rw [hst, hstrip, hstab]
    rfl
  refine ⟨hmain, ?_⟩
  simp only [mcFindCorrectAnswer, List.getElem?_cons_zero]
  exact hmain

/-- Witness for C10: an exact annotation followed by trailing prose. -/
theorem claim_C10_witness :
    parseCorrectAnswerLineMC (String.mk ("Correct Answer: B".data ++ " because reasons".data)) =
      some (convert_letter_to_index 'B') ∧
    mcFindCorrectAnswer [String.mk ("Correct Answer: B".data ++ " because reasons".data)] 0 =
      some (convert_letter_to_index 'B') :=
  claim_C10 "Correct Answer: B".data " because reasons".data 'B' [] rfl
